import Mathlib

/-!
Verification of the core sync/copy/move engine of an rclone-style file
replication tool, shallowly embedded in Lean 4.

Times and durations are modelled as integers (nanoseconds, matching Go's
`time.Duration` / `time.Time` nanosecond representation).  Maps are
modelled as association lists, channels as lists of the values sent on
them, and goroutine effects as explicit state passing.
-/

namespace Rclone

/-- Object models one file at the source or destination: remote-relative
path, byte size, modification time in nanoseconds, and whether the
backend declared it storable. -/
structure Object where
  remote : String
  size : Int
  modTime : Int
  storable : Bool
deriving Repr, DecidableEq

/-- Config models the fields of the process-wide configuration consulted
by NeedTransfer and the sync pipeline. -/
structure Config where
  ignoreExisting : Bool
  ignoreTimes : Bool
  updateOlder : Bool
  modifyWindow : Int
deriving Repr, DecidableEq

/-- Modelled from the spec: the explicit "mod time not supported" sentinel
duration (`ModTimeNotSupported`), whose definition is not under src/; the
spec describes ModifyWindow as "a duration ... or an explicit unsupported
sentinel".  The sentinel is 100 years in nanoseconds. -/
def modTimeNotSupported : Int := 100 * 365 * 24 * 3600 * 1000000000

/-- oneSecond is Go's `time.Second` in nanoseconds. -/
def oneSecond : Int := 1000000000

/-- NeedTransfer checks to see if src needs to be copied to dst using the
current config, translated from `NeedTransfer` in the sync source.  The
default `Equal(src, dst)` comparison is passed in as the function
parameter `equalFn` (its body lives outside the sync file). -/
def NeedTransfer (cfg : Config) (equalFn : Object → Object → Bool)
    (dst : Option Object) (src : Object) : Bool :=
  match dst with
  | none => true
  | some dst =>
    if cfg.ignoreExisting then
      false
    else if cfg.ignoreTimes then
      true
    else if cfg.updateOlder then
      let dt := dst.modTime - src.modTime
      let modifyWindow :=
        if cfg.modifyWindow = modTimeNotSupported then oneSecond
        else cfg.modifyWindow
      if dt ≥ modifyWindow then
        false
      else if dt ≤ -modifyWindow then
        true
      else if src.size = dst.size then
        false
      else
        true
    else
      if equalFn src dst then false else true

/-- Claim C1: with update-older enabled (ignore-existing and ignore-times
off) and an ordinary ModifyWindow, NeedTransfer skips when dst is newer
than src by at least the window, transfers when dst is older by at least
the window, and otherwise transfers exactly when the sizes differ. -/
theorem C1_needTransfer_updateOlder (cfg : Config) (equalFn : Object → Object → Bool)
    (src dst : Object)
    (hUO : cfg.updateOlder = true)
    (hIE : cfg.ignoreExisting = false)
    (hIT : cfg.ignoreTimes = false)
    (hW : cfg.modifyWindow ≠ modTimeNotSupported)
    (hpos : 0 < cfg.modifyWindow) :
    (dst.modTime - src.modTime ≥ cfg.modifyWindow →
      NeedTransfer cfg equalFn (some dst) src = false) ∧
    (dst.modTime - src.modTime ≤ -cfg.modifyWindow →
      NeedTransfer cfg equalFn (some dst) src = true) ∧
    (-cfg.modifyWindow < dst.modTime - src.modTime →
      dst.modTime - src.modTime < cfg.modifyWindow →
      (NeedTransfer cfg equalFn (some dst) src = true ↔ src.size ≠ dst.size)) := by
  simp only [NeedTransfer, hUO, hIE, hIT, if_neg hW, Bool.false_eq_true, if_false,
    if_true]
  refine ⟨fun h => ?_, fun h => ?_, fun h1 h2 => ?_⟩
  · rw [if_pos h]
  · rw [if_neg (by omega), if_pos h]
  · rw [if_neg (by omega), if_neg (by omega)]
    by_cases hsz : src.size = dst.size
    · simp [hsz]
    · simp [hsz]

/-- Witness for C1 at a concrete configuration and object pair. -/
theorem C1_needTransfer_updateOlder_witness :
    let cfg : Config := ⟨false, false, true, 1000⟩
    let src : Object := ⟨"a", 5, 0, true⟩
    let dst : Object := ⟨"a", 7, 500, true⟩
    (dst.modTime - src.modTime ≥ cfg.modifyWindow →
      NeedTransfer cfg (fun _ _ => false) (some dst) src = false) ∧
    (dst.modTime - src.modTime ≤ -cfg.modifyWindow →
      NeedTransfer cfg (fun _ _ => false) (some dst) src = true) ∧
    (-cfg.modifyWindow < dst.modTime - src.modTime →
      dst.modTime - src.modTime < cfg.modifyWindow →
      (NeedTransfer cfg (fun _ _ => false) (some dst) src = true ↔
        src.size ≠ dst.size)) :=
  C1_needTransfer_updateOlder ⟨false, false, true, 1000⟩ (fun _ _ => false)
    ⟨"a", 5, 0, true⟩ ⟨"a", 7, 500, true⟩ rfl rfl rfl (by decide) (by decide)

/-- Claim C9: when the configured ModifyWindow is the "mod time not
supported" sentinel, NeedTransfer in update-older mode behaves exactly as
it would with a one second window. -/
theorem C9_needTransfer_sentinelWindow (cfg : Config)
    (equalFn : Object → Object → Bool) (src dst : Object)
    (hUO : cfg.updateOlder = true)
    (hIE : cfg.ignoreExisting = false)
    (hIT : cfg.ignoreTimes = false)
    (hW : cfg.modifyWindow = modTimeNotSupported) :
    NeedTransfer cfg equalFn (some dst) src =
      NeedTransfer ⟨cfg.ignoreExisting, cfg.ignoreTimes, cfg.updateOlder, oneSecond⟩
        equalFn (some dst) src := by
  simp only [NeedTransfer, hUO, hIE, hIT, hW]
  norm_num [modTimeNotSupported, oneSecond]

/-- Witness for C9 at a concrete configuration and object pair. -/
theorem C9_needTransfer_sentinelWindow_witness :
    NeedTransfer ⟨false, false, true, modTimeNotSupported⟩ (fun _ _ => false)
        (some ⟨"a", 7, 500, true⟩) ⟨"a", 5, 0, true⟩ =
      NeedTransfer ⟨false, false, true, oneSecond⟩ (fun _ _ => false)
        (some ⟨"a", 7, 500, true⟩) ⟨"a", 5, 0, true⟩ :=
  C9_needTransfer_sentinelWindow ⟨false, false, true, modTimeNotSupported⟩
    (fun _ _ => false) ⟨"a", 5, 0, true⟩ ⟨"a", 7, 500, true⟩ rfl rfl rfl rfl

/-- ErrKind classifies an error the way IsFatalError / IsNoRetryError do
in processError's switch: fatal, no-retry, or ordinary. -/
inductive ErrKind
  | fatal
  | noRetry
  | ordinary
deriving Repr, DecidableEq

/-- Err models one error value, carrying its retry classification and an
identity so that distinct errors can be told apart. -/
structure Err where
  kind : ErrKind
  id : Nat
deriving Repr, DecidableEq

/-- ErrState models the error slots of the sync state guarded by errorMu,
together with the abort channel: aborted is whether the channel is
closed, and abortCloses counts how many times close was called on it. -/
structure ErrState where
  err : Option Err
  noRetryErr : Option Err
  fatalErr : Option Err
  aborted : Bool
  abortCloses : Nat
deriving Repr, DecidableEq

/-- initErrState is the error state of a freshly constructed sync. -/
def initErrState : ErrState := ⟨none, none, none, false, 0⟩

/-- processError checks the type of an error returned while copying
files and records it in the corresponding slot, translated from
`processError`: a fatal error also closes the abort channel unless it is
already closed. -/
def processError (s : ErrState) (e : Option Err) : ErrState :=
  match e with
  | none => s
  | some e =>
    match e.kind with
    | .fatal =>
      let s' := if s.aborted then s else
        ⟨s.err, s.noRetryErr, s.fatalErr, true, s.abortCloses + 1⟩
      ⟨s'.err, s'.noRetryErr, some e, s'.aborted, s'.abortCloses⟩
    | .noRetry => ⟨s.err, some e, s.fatalErr, s.aborted, s.abortCloses⟩
    | .ordinary => ⟨some e, s.noRetryErr, s.fatalErr, s.aborted, s.abortCloses⟩

/-- currentError returns the current error in the order of precedence
fatalErr, normal error, noRetryErr, translated from `currentError`. -/
def currentError (s : ErrState) : Option Err :=
  match s.fatalErr with
  | some e => some e
  | none =>
    match s.err with
    | some e => some e
    | none => s.noRetryErr

/-- runErrors folds a sequence of reported errors through processError
starting from the fresh sync state. -/
def runErrors (es : List Err) : ErrState :=
  es.foldl (fun s e => processError s (some e)) initErrState

/-- lastOfKind returns the most recently reported error of the given
classification, if any. -/
def lastOfKind (k : ErrKind) (es : List Err) : Option Err :=
  (es.filter (fun e => e.kind = k)).getLast?

/-- Reporting a fatal error records it in the fatal slot, closes the
abort channel when it was still open, and leaves the other slots
alone. -/
theorem processError_fatal (s : ErrState) (e : Err) (h : e.kind = .fatal) :
    processError s (some e) =
      ⟨s.err, s.noRetryErr, some e, true,
        s.abortCloses + (if s.aborted then 0 else 1)⟩ := by
  simp only [processError, h]
  by_cases hab : s.aborted <;> simp [hab]

/-- Reporting a no-retry error only replaces the no-retry slot. -/
theorem processError_noRetry (s : ErrState) (e : Err) (h : e.kind = .noRetry) :
    processError s (some e) =
      ⟨s.err, some e, s.fatalErr, s.aborted, s.abortCloses⟩ := by
  simp [processError, h]

/-- Reporting an ordinary error only replaces the normal-error slot. -/
theorem processError_ordinary (s : ErrState) (e : Err) (h : e.kind = .ordinary) :
    processError s (some e) =
      ⟨some e, s.noRetryErr, s.fatalErr, s.aborted, s.abortCloses⟩ := by
  simp [processError, h]

/-- getLast? of a cons is the last of the tail when the tail is
nonempty. -/
theorem getLast?_cons_some {α : Type} (x a : α) (l : List α)
    (h : l.getLast? = some a) : (x :: l).getLast? = some a := by
  cases l with
  | nil => simp at h
  | cons b t => rw [List.getLast?_cons_cons]; exact h

/-- getLast? of a nonempty list is some element. -/
theorem getLast?_isSome_of_ne_nil {α : Type} (l : List α) (h : l ≠ []) :
    ∃ a, l.getLast? = some a := by
  induction l with
  | nil => cases h rfl
  | cons x t ih =>
    cases t with
    | nil => exact ⟨x, by simp⟩
    | cons y t' =>
      rw [List.getLast?_cons_cons]
      exact ih (by simp)

/-- lastOfKind on a cons keeps the head only when the tail has no later
error of that kind. -/
theorem lastOfKind_cons (e : Err) (es : List Err) (k : ErrKind) :
    lastOfKind k (e :: es)
      = if e.kind = k then ((lastOfKind k es).rec (some e) some)
        else lastOfKind k es := by
  by_cases hk : e.kind = k
  · rw [if_pos hk]
    have hfc : (e :: es).filter (fun x => decide (x.kind = k))
        = e :: es.filter (fun x => decide (x.kind = k)) := by
      simp [List.filter_cons, hk]
    rw [lastOfKind, hfc]
    cases hlast : (es.filter (fun x => decide (x.kind = k))).getLast? with
    | none =>
      have hnil : es.filter (fun x => decide (x.kind = k)) = [] := by
        by_contra hne
        obtain ⟨b, hb⟩ := getLast?_isSome_of_ne_nil _ hne
        rw [hb] at hlast
        exact Option.noConfusion hlast
      rw [show lastOfKind k es = none from by rw [lastOfKind, hnil]; rfl, hnil]
      simp
    | some a =>
      rw [show lastOfKind k es = some a from by rw [lastOfKind]; exact hlast]
      exact getLast?_cons_some _ _ _ hlast
  · rw [if_neg hk, lastOfKind, lastOfKind]
    congr 1
    simp [List.filter_cons, hk]

/-- Characterization of the slots, the abort flag and the abort-close
count of processError folded from an arbitrary starting state. -/
theorem runErrors_foldl_spec (es : List Err) (s : ErrState) :
    (es.foldl (fun s e => processError s (some e)) s).fatalErr
        = ((lastOfKind .fatal es).rec s.fatalErr some) ∧
    (es.foldl (fun s e => processError s (some e)) s).err
        = ((lastOfKind .ordinary es).rec s.err some) ∧
    (es.foldl (fun s e => processError s (some e)) s).noRetryErr
        = ((lastOfKind .noRetry es).rec s.noRetryErr some) ∧
    (es.foldl (fun s e => processError s (some e)) s).aborted
        = (s.aborted || es.any (fun e => e.kind = .fatal)) ∧
    (es.foldl (fun s e => processError s (some e)) s).abortCloses
        = s.abortCloses +
            (if ¬ s.aborted ∧ es.any (fun e => e.kind = .fatal) then 1 else 0) := by
  induction es generalizing s with
  | nil => simp [lastOfKind]
  | cons e es ih =>
    obtain ⟨ih1, ih2, ih3, ih4, ih5⟩ := ih (processError s (some e))
    refine ⟨?_, ?_, ?_, ?_, ?_⟩
    · rw [List.foldl_cons, ih1, lastOfKind_cons]
      cases hk : e.kind
      · rw [if_pos rfl, processError_fatal s e hk]
        cases lastOfKind .fatal es <;> rfl
      · rw [if_neg (fun h => ErrKind.noConfusion h),
          processError_noRetry s e hk]
      · rw [if_neg (fun h => ErrKind.noConfusion h),
          processError_ordinary s e hk]
    · rw [List.foldl_cons, ih2, lastOfKind_cons]
      cases hk : e.kind
      · rw [if_neg (fun h => ErrKind.noConfusion h),
          processError_fatal s e hk]
      · rw [if_neg (fun h => ErrKind.noConfusion h),
          processError_noRetry s e hk]
      · rw [if_pos rfl, processError_ordinary s e hk]
        cases lastOfKind .ordinary es <;> rfl
    · rw [List.foldl_cons, ih3, lastOfKind_cons]
      cases hk : e.kind
      · rw [if_neg (fun h => ErrKind.noConfusion h),
          processError_fatal s e hk]
      · rw [if_pos rfl, processError_noRetry s e hk]
        cases lastOfKind .noRetry es <;> rfl
      · rw [if_neg (fun h => ErrKind.noConfusion h),
          processError_ordinary s e hk]
    · rw [List.foldl_cons, ih4, List.any_cons]
      cases hk : e.kind
      · rw [processError_fatal s e hk]
        simp [hk]
      · rw [processError_noRetry s e hk]
        simp [hk]
      · rw [processError_ordinary s e hk]
        simp [hk]
    · rw [List.foldl_cons, ih5, List.any_cons]
      cases hk : e.kind
      · rw [processError_fatal s e hk]
        by_cases hab : s.aborted <;> simp [hab, hk]
      · rw [processError_noRetry s e hk]
        simp [hk]
      · rw [processError_ordinary s e hk]
        simp [hk]

/-- Claim C3: after any sequence of reported errors the aggregated error
is the recorded fatal error if a fatal error occurred, otherwise the last
ordinary error, otherwise the last no-retry error; a fatal error closes
the abort channel and the channel is closed at most once. -/
theorem C3_processError_aggregation (es : List Err) :
    (currentError (runErrors es) =
      match lastOfKind .fatal es with
      | some e => some e
      | none =>
        match lastOfKind .ordinary es with
        | some e => some e
        | none => lastOfKind .noRetry es) ∧
    (runErrors es).abortCloses =
      (if es.any (fun e => e.kind = .fatal) then 1 else 0) ∧
    (runErrors es).abortCloses ≤ 1 := by
  obtain ⟨h1, h2, h3, _h4, h5⟩ := runErrors_foldl_spec es initErrState
  have hcur : currentError (runErrors es) =
      match lastOfKind .fatal es with
      | some e => some e
      | none =>
        match lastOfKind .ordinary es with
        | some e => some e
        | none => lastOfKind .noRetry es := by
    rw [currentError, runErrors] at *
    rw [h1, h2, h3]
    cases lastOfKind .fatal es <;> cases lastOfKind .ordinary es <;>
      cases lastOfKind .noRetry es <;> simp [initErrState]
  refine ⟨hcur, ?_, ?_⟩
  · rw [runErrors] at *
    rw [h5]
    simp [initErrState]
  · rw [runErrors] at *
    rw [h5]
    simp only [initErrState]
    split <;> simp

/-- HashType models the hash algorithms a backend can produce; the
absent value HashNone is modelled as `none` at use sites. -/
inductive HashType
  | md5
  | sha1
  | dropbox
deriving Repr, DecidableEq

/-- Features models the optional-capability record of a backend, as far
as the sync construction consults it. -/
structure Features where
  move : Bool
  copy : Bool
deriving Repr, DecidableEq

/-- Fs models one remote as the sync construction sees it: its hash set
and its feature record. -/
structure Fs where
  hashes : List HashType
  features : Features
deriving Repr, DecidableEq

/-- Modelled from the spec: CanServerSideMove reports whether a remote
supports server-side move or copy (its body is not under src/; the sync
source's own message reads "the destination does not support server-side
move or copy"). -/
def CanServerSideMove (f : Fs) : Bool := f.features.move || f.features.copy

/-- hashOverlapGetOne models `fsrc.Hashes().Overlap(fdst.Hashes()).GetOne()`:
the canonical member of the intersection of the two hash sets, `none`
standing for HashNone. -/
def hashOverlapGetOne (src dst : List HashType) : Option HashType :=
  (src.filter (fun h => dst.contains h)).head?

/-- DeleteMode is how the sync is doing deletions. -/
inductive DeleteMode
  | off
  | before
  | during
  | after
  | only
deriving Repr, DecidableEq

/-- SyncSetup is the part of the sync state settled by newSyncCopyMove
that the track-renames claims are about. -/
structure SyncSetup where
  deleteMode : DeleteMode
  trackRenames : Bool
  noTraverse : Bool
  commonHash : Option HashType
deriving Repr, DecidableEq

/-- newSyncCopyMove translates the construction logic of
`newSyncCopyMove`: requested track-renames is dropped without server-side
move or copy support on the destination or without a common hash, and a
surviving track-renames forces delete-after (for a delete mode other than
off) and disables no-traverse. -/
def newSyncCopyMove (fdst fsrc : Fs) (deleteMode : DeleteMode)
    (cfgTrackRenames cfgNoTraverse : Bool) : SyncSetup :=
  let commonHash := hashOverlapGetOne fsrc.hashes fdst.hashes
  let noTraverse := if cfgNoTraverse && deleteMode ≠ DeleteMode.off then false
    else cfgNoTraverse
  let trackRenames := if cfgTrackRenames && ! CanServerSideMove fdst then false
    else cfgTrackRenames
  let trackRenames := if trackRenames && commonHash = none then false
    else trackRenames
  let deleteMode := if trackRenames && deleteMode ≠ DeleteMode.off then DeleteMode.after
    else deleteMode
  let noTraverse := if trackRenames && noTraverse then false else noTraverse
  ⟨deleteMode, trackRenames, noTraverse, commonHash⟩

/-- Claim C4 counterexample: with delete mode off (a plain copy), a
surviving track-renames does not force the delete mode to delete-after;
it stays off, refuting the unconditional "forces delete-after" claim. -/
theorem C4_trackRenames_counterexample :
    (newSyncCopyMove ⟨[HashType.md5], ⟨true, false⟩⟩ ⟨[HashType.md5], ⟨true, false⟩⟩
        DeleteMode.off true false).trackRenames = true ∧
    (newSyncCopyMove ⟨[HashType.md5], ⟨true, false⟩⟩ ⟨[HashType.md5], ⟨true, false⟩⟩
        DeleteMode.off true false).deleteMode ≠ DeleteMode.after := by
  constructor
  · rfl
  · decide

/-- Claim C4 (amended): track-renames survives construction only when the
destination supports server-side move or copy and the two ends share a
hash, and a surviving track-renames forces delete-after exactly when the
requested delete mode was not off (a delete mode of off stays off). -/
theorem C4_trackRenames_requirements (fdst fsrc : Fs) (deleteMode : DeleteMode)
    (cfgNoTraverse : Bool)
    (h : (newSyncCopyMove fdst fsrc deleteMode true cfgNoTraverse).trackRenames = true) :
    CanServerSideMove fdst = true ∧
    hashOverlapGetOne fsrc.hashes fdst.hashes ≠ none ∧
    (deleteMode ≠ DeleteMode.off →
      (newSyncCopyMove fdst fsrc deleteMode true cfgNoTraverse).deleteMode
        = DeleteMode.after) ∧
    (deleteMode = DeleteMode.off →
      (newSyncCopyMove fdst fsrc deleteMode true cfgNoTraverse).deleteMode
        = DeleteMode.off) := by
  by_cases hmv : CanServerSideMove fdst
  · by_cases hch : hashOverlapGetOne fsrc.hashes fdst.hashes = none
    · exfalso
      simp [newSyncCopyMove, hmv, hch] at h
    · refine ⟨hmv, hch, fun hdm => ?_, fun hdm => ?_⟩
      · simp [newSyncCopyMove, hmv, hch, hdm]
      · simp [newSyncCopyMove, hmv, hch, hdm]
  · exfalso
    simp [newSyncCopyMove, hmv] at h

/-- Witness for the amended C4 at a concrete pair of remotes. -/
theorem C4_trackRenames_requirements_witness :
    CanServerSideMove ⟨[HashType.md5], ⟨true, false⟩⟩ = true ∧
    hashOverlapGetOne [HashType.md5] [HashType.md5] ≠ none ∧
    (DeleteMode.during ≠ DeleteMode.off →
      (newSyncCopyMove ⟨[HashType.md5], ⟨true, false⟩⟩ ⟨[HashType.md5], ⟨true, false⟩⟩
        DeleteMode.during true false).deleteMode = DeleteMode.after) ∧
    (DeleteMode.during = DeleteMode.off →
      (newSyncCopyMove ⟨[HashType.md5], ⟨true, false⟩⟩ ⟨[HashType.md5], ⟨true, false⟩⟩
        DeleteMode.during true false).deleteMode = DeleteMode.off) :=
  C4_trackRenames_requirements ⟨[HashType.md5], ⟨true, false⟩⟩
    ⟨[HashType.md5], ⟨true, false⟩⟩ DeleteMode.during false (by decide)

/-- ErrorNotDeleting is the sentinel error logged or returned when
deletions are suppressed because errors occurred earlier in the run. -/
def ErrorNotDeleting : String := "not deleting files as there were IO errors"

/-- Modelled from the spec: deleteFilesWithBackupDir drains the channel
of objects and deletes each one (or moves it into the backup directory);
its body is not under src/.  The result is the list of destination
objects removed. -/
def deleteFilesWithBackupDir (toDelete : List Object) : List Object :=
  toDelete

/-- deleteFiles translates `deleteFiles`: with a non-zero error counter
it returns ErrorNotDeleting without deleting anything; otherwise it
deletes the dstFiles map entries (those absent from srcFiles when
checkSrcMap is set).  The pair is the returned error and the destination
objects removed. -/
def deleteFiles (statsErrored : Bool) (srcFiles : List String)
    (dstFiles : List (String × Object)) (checkSrcMap : Bool) :
    Option String × List Object :=
  if statsErrored then
    (some ErrorNotDeleting, [])
  else
    let toDelete := if checkSrcMap
      then (dstFiles.filter (fun p => ! srcFiles.contains p.1)).map (fun p => p.2)
      else dstFiles.map (fun p => p.2)
    (none, deleteFilesWithBackupDir toDelete)

/-- runDeleteAfter translates the tail of `runDirAtATime`: in delete-after
mode the accumulated dstFiles are deleted only when currentError is nil,
and deleteFiles itself refuses to delete when the error counter is
non-zero.  The result is the list of destination objects removed. -/
def runDeleteAfter (deleteMode : DeleteMode) (curErr : Option Err)
    (statsErrored : Bool) (dstFiles : List (String × Object)) : List Object :=
  if deleteMode = DeleteMode.after then
    if curErr ≠ none then []
    else (deleteFiles statsErrored [] dstFiles false).2
  else []

/-- Claim C5: in delete-after mode, any recorded error (a non-nil
currentError or a non-zero error counter) suppresses the deletion pass
entirely: no destination object is removed, and when the error counter
is the trigger deleteFiles returns ErrorNotDeleting without deleting. -/
theorem C5_deleteAfter_suppressed (deleteMode : DeleteMode) (curErr : Option Err)
    (statsErrored : Bool) (srcFiles : List String)
    (dstFiles : List (String × Object)) (checkSrcMap : Bool)
    (h1 : deleteMode = DeleteMode.after)
    (h2 : curErr ≠ none ∨ statsErrored = true) :
    runDeleteAfter deleteMode curErr statsErrored dstFiles = [] ∧
    (statsErrored = true →
      (deleteFiles statsErrored srcFiles dstFiles checkSrcMap).1
          = some ErrorNotDeleting ∧
      (deleteFiles statsErrored srcFiles dstFiles checkSrcMap).2 = []) := by
  subst h1
  constructor
  · rcases h2 with h2 | h2
    · simp [runDeleteAfter, h2]
    · subst h2
      by_cases hce : curErr = none <;> simp [runDeleteAfter, deleteFiles, hce]
  · intro hs
    subst hs
    exact ⟨rfl, rfl⟩

/-- Witness for C5 at a concrete errored state. -/
theorem C5_deleteAfter_suppressed_witness :
    runDeleteAfter DeleteMode.after (some ⟨ErrKind.ordinary, 0⟩) true
        [("a", ⟨"a", 1, 0, true⟩)] = [] ∧
    (true = true →
      (deleteFiles true [] [("a", ⟨"a", 1, 0, true⟩)] false).1
          = some ErrorNotDeleting ∧
      (deleteFiles true [] [("a", ⟨"a", 1, 0, true⟩)] false).2 = []) :=
  C5_deleteAfter_suppressed DeleteMode.after (some ⟨ErrKind.ordinary, 0⟩) true
    [] [("a", ⟨"a", 1, 0, true⟩)] false rfl (Or.inr rfl)

/-- B2Fs models the upload-URL pool of the B2 backend: the cached
GetUploadURLResponse values (as identifiers) and a counter generating the
next fresh URL the b2_get_upload_url RPC would hand out. -/
structure B2Fs where
  uploads : List Nat
  nextUploadURL : Nat
deriving Repr, DecidableEq

/-- getUploadURL translates `getUploadURL`: it pops a cached upload URL
from the pool, or asks the service for a fresh one when the pool is
empty. -/
def getUploadURL (f : B2Fs) : Nat × B2Fs :=
  match f.uploads with
  | [] => (f.nextUploadURL, ⟨[], f.nextUploadURL + 1⟩)
  | upload :: rest => (upload, ⟨rest, f.nextUploadURL⟩)

/-- returnUploadURL translates `returnUploadURL`: the upload URL is
appended back onto the pool. -/
def returnUploadURL (f : B2Fs) (upload : Nat) : B2Fs :=
  ⟨f.uploads ++ [upload], f.nextUploadURL⟩

/-- b2Update translates the pool manipulation of `Object.Update`: an
upload URL is checked out at the start, and the deferred returnUploadURL
runs whether the upload RPC (whose outcome is the uploadOk parameter)
succeeded or failed.  The pair is the returned error and the final
backend state. -/
def b2Update (f : B2Fs) (uploadOk : Bool) : Option String × B2Fs :=
  let checkout := getUploadURL f
  let f' := returnUploadURL checkout.2 checkout.1
  (if uploadOk then none else some "upload returned error", f')

/-- Claim C7 counterexample: a failed upload does not discard the
checked-out upload URL; the deferred returnUploadURL puts it back in the
pool. -/
theorem C7_uploadURL_counterexample :
    (b2Update ⟨[7], 0⟩ false).1 ≠ none ∧
    (b2Update ⟨[7], 0⟩ false).2.uploads = [7] := by
  constructor
  · decide
  · rfl

/-- Claim C7 (amended): the upload URL checked out by getUploadURL at the
start of Object.Update is returned to the pool by the deferred
returnUploadURL whether the upload succeeds or fails. -/
theorem C7_uploadURL_always_returned (f : B2Fs) (uploadOk : Bool) :
    (b2Update f uploadOk).2.uploads
      = (getUploadURL f).2.uploads ++ [(getUploadURL f).1] := by
  cases uploadOk <;> rfl

/-- RepeatableReader models the repeatable reader: the not-yet-consumed
suffix of the underlying input reader, the current reading index, and
the internal cache buffer. -/
structure RepeatableReader where
  src : List Nat
  i : Int
  b : List Nat
deriving Repr, DecidableEq

/-- NewRepeatableReader creates a new repeatable reader in front of the
given underlying stream. -/
def NewRepeatableReader (stream : List Nat) : RepeatableReader :=
  ⟨stream, 0, []⟩

/-- resolveAbs computes the absolute position of a Seek request, the way
the whence switch of `Seek` does; `none` models the invalid-whence
error. -/
def resolveAbs (r : RepeatableReader) (offset : Int) (whence : Nat) : Option Int :=
  match whence with
  | 0 => some offset
  | 1 => some (r.i + offset)
  | 2 => some ((r.b.length : Int) + offset)
  | _ => none

/-- seek translates `Seek`: positions inside the cache move the reading
index, a negative position or a position past the cached length is
an error that leaves the reader unchanged. -/
def seek (r : RepeatableReader) (offset : Int) (whence : Nat) :
    (Int × Option String) × RepeatableReader :=
  let cacheLen : Int := r.b.length
  match resolveAbs r offset whence with
  | none => ((0, some "fs.RepeatableReader.Seek: invalid whence"), r)
  | some abs =>
    if abs < 0 then
      ((0, some "fs.RepeatableReader.Seek: negative position"), r)
    else if abs > cacheLen then
      ((offset - (abs - cacheLen),
        some "fs.RepeatableReader.Seek: offset is unavailable"), r)
    else
      ((abs, none), ⟨r.src, abs, r.b⟩)

/-- read translates `Read` asked for n bytes: at the end of the cache it
reads from the underlying reader and appends what it got to the cache;
inside the cache it serves cached bytes without touching the underlying
reader.  The first component is the data delivered to the caller. -/
def read (r : RepeatableReader) (n : Nat) : List Nat × RepeatableReader :=
  let cacheLen : Int := r.b.length
  if r.i = cacheLen then
    let chunk := r.src.take n
    (chunk, ⟨r.src.drop chunk.length, r.i + chunk.length, r.b ++ chunk⟩)
  else
    let chunk := (r.b.drop r.i.toNat).take n
    (chunk, ⟨r.src, r.i + chunk.length, r.b⟩)

/-- RWOp is one client operation against a repeatable reader. -/
inductive RWOp
  | doRead (n : Nat)
  | doSeek (offset : Int) (whence : Nat)
deriving Repr, DecidableEq

/-- applyOp runs one operation for its state effect. -/
def applyOp (r : RepeatableReader) (op : RWOp) : RepeatableReader :=
  match op with
  | .doRead n => (read r n).2
  | .doSeek offset whence => (seek r offset whence).2

/-- runOps folds a sequence of operations over a reader. -/
def runOps (r : RepeatableReader) (ops : List RWOp) : RepeatableReader :=
  ops.foldl applyOp r

/-- readerInv says the cache buffer is exactly the prefix of the
original stream consumed so far (each consumed byte appears in the
buffer exactly once, in order) and the reading index stays inside the
buffer. -/
def readerInv (stream : List Nat) (r : RepeatableReader) : Prop :=
  r.b ++ r.src = stream ∧ 0 ≤ r.i ∧ r.i ≤ (r.b.length : Int)

/-- A single operation preserves readerInv. -/
theorem applyOp_inv (stream : List Nat) (r : RepeatableReader) (op : RWOp)
    (h : readerInv stream r) : readerInv stream (applyOp r op) := by
  obtain ⟨hb, h0, hlen⟩ := h
  cases op with
  | doRead n =>
    simp only [applyOp, read]
    by_cases hi : r.i = (r.b.length : Int)
    · simp only [if_pos hi]
      refine ⟨?_, ?_, ?_⟩
      · dsimp only
        simp only [List.append_assoc]
        rw [show r.src.take n ++ r.src.drop (r.src.take n).length = r.src from ?_]
        · exact hb
        · rw [List.length_take]
          rcases Nat.le_total n r.src.length with hle | hle
          · rw [Nat.min_eq_left hle, List.take_append_drop]
          · rw [Nat.min_eq_right hle, List.take_of_length_le hle,
              List.drop_of_length_le (le_refl _), List.append_nil]
      · dsimp only
        omega
      · dsimp only
        simp only [List.length_append]
        omega
    · simp only [if_neg hi]
      have hchunk : ((r.b.drop r.i.toNat).take n).length ≤ r.b.length - r.i.toNat := by
        rw [List.length_take, List.length_drop]
        omega
      refine ⟨hb, by dsimp only; omega, by dsimp only; omega⟩
  | doSeek offset whence =>
    simp only [applyOp, seek]
    cases habs : resolveAbs r offset whence with
    | none => exact ⟨hb, h0, hlen⟩
    | some abs =>
      by_cases hneg : abs < 0
      · simp only [if_pos hneg]
        exact ⟨hb, h0, hlen⟩
      · by_cases hover : abs > (r.b.length : Int)
        · simp only [if_neg hneg, if_pos hover]
          exact ⟨hb, h0, hlen⟩
        · simp only [if_neg hneg, if_neg hover]
          exact ⟨hb, by dsimp only; omega, by dsimp only; omega⟩

/-- Any sequence of operations preserves readerInv. -/
theorem runOps_inv (stream : List Nat) (ops : List RWOp) (r : RepeatableReader)
    (h : readerInv stream r) : readerInv stream (runOps r ops) := by
  induction ops generalizing r with
  | nil => exact h
  | cons op ops ih =>
    simp only [runOps, List.foldl_cons]
    exact ih (applyOp r op) (applyOp_inv stream r op h)

/-- Claim C6: a Seek resolving inside the buffered bytes succeeds and
repositions the index there; a Seek resolving past the buffered end
fails and leaves the reader unchanged; reads inside the buffer re-serve
cached bytes without consuming the underlying reader; and across any
sequence of operations, the bytes obtained from the underlying reader
are exactly the buffer contents, each appended exactly once in order. -/
theorem C6_repeatableReader (r : RepeatableReader) (stream : List Nat)
    (offset : Int) (whence : Nat) (abs : Int) (n : Nat) (ops : List RWOp)
    (hres : resolveAbs r offset whence = some abs) :
    (0 ≤ abs → abs ≤ (r.b.length : Int) →
      seek r offset whence = ((abs, none), ⟨r.src, abs, r.b⟩)) ∧
    (abs > (r.b.length : Int) →
      (seek r offset whence).1.2 ≠ none ∧ (seek r offset whence).2 = r) ∧
    (0 ≤ r.i → r.i < (r.b.length : Int) →
      (read r n).1 = (r.b.drop r.i.toNat).take n ∧ (read r n).2.src = r.src) ∧
    (readerInv stream r → readerInv stream (runOps r ops)) := by
  refine ⟨fun h0 hle => ?_, fun hover => ?_, fun hi0 hilt => ?_, fun hinv => ?_⟩
  · simp only [seek, hres]
    rw [if_neg (by omega), if_neg (by omega)]
  · simp only [seek, hres]
    rw [if_neg (by omega), if_pos (by omega)]
    exact ⟨by simp, rfl⟩
  · simp only [read]
    rw [if_neg (by omega)]
    exact ⟨rfl, rfl⟩
  · exact runOps_inv stream ops r hinv

/-- Witness for C6 at a concrete reader, seek and operation sequence. -/
theorem C6_repeatableReader_witness :
    (0 ≤ (2 : Int) → (2 : Int) ≤ (([4, 5, 6] : List Nat).length : Int) →
      seek ⟨[9, 8], 1, [4, 5, 6]⟩ 2 0 = ((2, none), ⟨[9, 8], 2, [4, 5, 6]⟩)) ∧
    ((2 : Int) > (([4, 5, 6] : List Nat).length : Int) →
      (seek ⟨[9, 8], 1, [4, 5, 6]⟩ 2 0).1.2 ≠ none ∧
      (seek ⟨[9, 8], 1, [4, 5, 6]⟩ 2 0).2 = ⟨[9, 8], 1, [4, 5, 6]⟩) ∧
    (0 ≤ (⟨[9, 8], 1, [4, 5, 6]⟩ : RepeatableReader).i →
      (⟨[9, 8], 1, [4, 5, 6]⟩ : RepeatableReader).i
          < (([4, 5, 6] : List Nat).length : Int) →
      (read ⟨[9, 8], 1, [4, 5, 6]⟩ 2).1
          = (([4, 5, 6] : List Nat).drop (1 : Int).toNat).take 2 ∧
      (read ⟨[9, 8], 1, [4, 5, 6]⟩ 2).2.src = [9, 8]) ∧
    (readerInv [4, 5, 6, 9, 8] ⟨[9, 8], 1, [4, 5, 6]⟩ →
      readerInv [4, 5, 6, 9, 8]
        (runOps ⟨[9, 8], 1, [4, 5, 6]⟩ [RWOp.doRead 4, RWOp.doSeek 0 0])) :=
  C6_repeatableReader ⟨[9, 8], 1, [4, 5, 6]⟩ [4, 5, 6, 9, 8] 2 0 2 2
    [RWOp.doRead 4, RWOp.doSeek 0 0] rfl

/-- CheckerCfg is the part of the sync state pairChecker consults:
whether a backup directory is configured, the backup suffix, and whether
the operation is a move. -/
structure CheckerCfg where
  backupDirSet : Bool
  suffix : String
  doMove : Bool
deriving Repr, DecidableEq

/-- CheckerOut collects the effects of pairChecker on one pair: the
pairs sent on the upload channel, the backup Move calls issued (source
remote and target path), the errors recorded via processError, and the
source objects deleted (move operations on skip). -/
structure CheckerOut where
  out : List (Object × Option Object)
  backupMoves : List (String × String)
  errors : List Err
  deletedSrc : List Object
deriving Repr, DecidableEq

/-- pairCheckerStep translates the body of `pairChecker` for one pair:
storable sources needing transfer are emitted to the upload channel,
after the existing destination object is moved into the backup directory
when one is configured (the outcome of that Move RPC is the moveErr
parameter, and the outcome of DeleteFile is deleteErr). -/
def pairCheckerStep (cfg : Config) (equalFn : Object → Object → Bool)
    (chk : CheckerCfg) (moveErr : Option Err) (deleteErr : Option Err)
    (pair : Object × Option Object) : CheckerOut :=
  let src := pair.1
  if src.storable then
    if NeedTransfer cfg equalFn pair.2 src then
      match pair.2 with
      | some dst =>
        if chk.backupDirSet then
          let remoteWithSuffix := dst.remote ++ chk.suffix
          match moveErr with
          | some e => ⟨[], [(dst.remote, remoteWithSuffix)], [e], []⟩
          | none => ⟨[(src, none)], [(dst.remote, remoteWithSuffix)], [], []⟩
        else
          ⟨[(src, some dst)], [], [], []⟩
      | none => ⟨[(src, none)], [], [], []⟩
    else
      if chk.doMove then
        match deleteErr with
        | some e => ⟨[], [], [e], []⟩
        | none => ⟨[], [], [], [src]⟩
      else
        ⟨[], [], [], []⟩
  else
    ⟨[], [], [], []⟩

/-- Claim C10: with an existing destination, a configured backup
directory and a yes transfer decision, pairChecker issues the backup
Move to the destination's path plus the suffix; the pair is forwarded
(with dst cleared) exactly when that Move succeeded, and on failure the
error is recorded and nothing is emitted. -/
theorem C10_pairChecker_backupDir (cfg : Config)
    (equalFn : Object → Object → Bool) (chk : CheckerCfg)
    (moveErr deleteErr : Option Err) (src dst : Object)
    (hstor : src.storable = true)
    (hbk : chk.backupDirSet = true)
    (hnt : NeedTransfer cfg equalFn (some dst) src = true) :
    (pairCheckerStep cfg equalFn chk moveErr deleteErr (src, some dst)).backupMoves
        = [(dst.remote, dst.remote ++ chk.suffix)] ∧
    (moveErr = none →
      (pairCheckerStep cfg equalFn chk moveErr deleteErr (src, some dst)).out
          = [(src, none)] ∧
      (pairCheckerStep cfg equalFn chk moveErr deleteErr (src, some dst)).errors
          = []) ∧
    (∀ e, moveErr = some e →
      (pairCheckerStep cfg equalFn chk moveErr deleteErr (src, some dst)).out
          = [] ∧
      (pairCheckerStep cfg equalFn chk moveErr deleteErr (src, some dst)).errors
          = [e]) := by
  cases moveErr with
  | none =>
    refine ⟨?_, fun _ => ⟨?_, ?_⟩, fun e he => Option.noConfusion he⟩ <;>
      simp [pairCheckerStep, hstor, hbk, hnt]
  | some e0 =>
    refine ⟨?_, fun hn => Option.noConfusion hn, fun e he => ?_⟩
    · simp [pairCheckerStep, hstor, hbk, hnt]
    · obtain rfl : e0 = e := Option.some.inj he
      constructor <;> simp [pairCheckerStep, hstor, hbk, hnt]

/-- Witness for C10 at a concrete pair with a failing backup move. -/
theorem C10_pairChecker_backupDir_witness :
    (pairCheckerStep ⟨false, true, false, 1000⟩ (fun _ _ => false)
        ⟨true, ".bak", false⟩ (some ⟨ErrKind.ordinary, 3⟩) none
        (⟨"f", 1, 0, true⟩, some ⟨"f", 2, 0, true⟩)).backupMoves
        = [("f", "f" ++ ".bak")] ∧
    (some ⟨ErrKind.ordinary, 3⟩ = (none : Option Err) →
      (pairCheckerStep ⟨false, true, false, 1000⟩ (fun _ _ => false)
        ⟨true, ".bak", false⟩ (some ⟨ErrKind.ordinary, 3⟩) none
        (⟨"f", 1, 0, true⟩, some ⟨"f", 2, 0, true⟩)).out
          = [(⟨"f", 1, 0, true⟩, none)] ∧
      (pairCheckerStep ⟨false, true, false, 1000⟩ (fun _ _ => false)
        ⟨true, ".bak", false⟩ (some ⟨ErrKind.ordinary, 3⟩) none
        (⟨"f", 1, 0, true⟩, some ⟨"f", 2, 0, true⟩)).errors = []) ∧
    (∀ e, some ⟨ErrKind.ordinary, 3⟩ = some e →
      (pairCheckerStep ⟨false, true, false, 1000⟩ (fun _ _ => false)
        ⟨true, ".bak", false⟩ (some ⟨ErrKind.ordinary, 3⟩) none
        (⟨"f", 1, 0, true⟩, some ⟨"f", 2, 0, true⟩)).out = [] ∧
      (pairCheckerStep ⟨false, true, false, 1000⟩ (fun _ _ => false)
        ⟨true, ".bak", false⟩ (some ⟨ErrKind.ordinary, 3⟩) none
        (⟨"f", 1, 0, true⟩, some ⟨"f", 2, 0, true⟩)).errors = [e]) :=
  C10_pairChecker_backupDir ⟨false, true, false, 1000⟩ (fun _ _ => false)
    ⟨true, ".bak", false⟩ (some ⟨ErrKind.ordinary, 3⟩) none
    ⟨"f", 1, 0, true⟩ ⟨"f", 2, 0, true⟩ rfl rfl rfl

/-- BasicInfo is one directory entry of a listing: a file object or a
subdirectory. -/
inductive BasicInfo
  | file (o : Object)
  | subDir (remote : String)
deriving Repr, DecidableEq

/-- remote is the name of a directory entry. -/
def BasicInfo.remote : BasicInfo → String
  | .file o => o.remote
  | .subDir r => r

/-- ListDirJob describes a directory listing that needs to be done,
translated from `listDirJob`. -/
structure ListDirJob where
  remote : String
  srcDepth : Int
  dstDepth : Int
  noSrc : Bool
  noDst : Bool
deriving Repr, DecidableEq

/-- DirState collects the effects of processing one directory job: the
channels written to, the dstFiles map of recorded deletions, counters of
recorded errors and panics, and the sub jobs produced. -/
structure DirState where
  toBeChecked : List (Object × Object)
  toBeUploaded : List Object
  trackRenamesCh : List Object
  deleteFilesCh : List Object
  dstFiles : List (String × Object)
  errs : Nat
  panics : Nat
  jobs : List ListDirJob
deriving Repr, DecidableEq

/-- mapInsert models a Go map assignment on an association list. -/
def mapInsert (m : List (String × Object)) (k : String) (v : Object) :
    List (String × Object) :=
  (k, v) :: m.filter (fun p => p.1 ≠ k)

/-- dstOnly translates `dstOnly`: an object present only in the
destination is recorded for deletion (delete-after) or sent to the
delete channel (delete-during and delete-only), a destination-only
directory is recursed with the source side suppressed, and delete mode
off ignores the entry entirely. -/
def dstOnly (s : SyncSetup) (dst : BasicInfo) (job : ListDirJob)
    (st : DirState) : DirState :=
  if s.deleteMode = DeleteMode.off then st
  else
    match dst with
    | .file x =>
      match s.deleteMode with
      | DeleteMode.after =>
        { st with dstFiles := mapInsert st.dstFiles x.remote x }
      | DeleteMode.during =>
        { st with deleteFilesCh := st.deleteFilesCh ++ [x] }
      | DeleteMode.only =>
        { st with deleteFilesCh := st.deleteFilesCh ++ [x] }
      | _ => { st with panics := st.panics + 1 }
    | .subDir r =>
      if job.dstDepth > 0 then
        { st with jobs := st.jobs ++ [⟨r, 0, job.dstDepth - 1, true, false⟩] }
      else st

/-- srcOnly translates `srcOnly`: in delete-only mode source-only
entries are ignored; otherwise a source-only file is queued as a rename
candidate when rename tracking is on and uploaded directly when it is
off, and a source-only directory is recursed with the destination side
suppressed. -/
def srcOnly (s : SyncSetup) (src : BasicInfo) (job : ListDirJob)
    (st : DirState) : DirState :=
  if s.deleteMode = DeleteMode.only then st
  else
    match src with
    | .file x =>
      if s.trackRenames then
        { st with trackRenamesCh := st.trackRenamesCh ++ [x] }
      else
        { st with toBeUploaded := st.toBeUploaded ++ [x] }
    | .subDir r =>
      if job.srcDepth > 0 then
        { st with jobs := st.jobs ++ [⟨r, job.srcDepth - 1, 0, false, true⟩] }
      else st

/-- transfer translates `transfer`: a matched file pair goes to the
checker channel (except in delete-only mode), a matched directory pair
is recursed while both depths remain, and a file/directory kind
mismatch records an error. -/
def transfer (s : SyncSetup) (dst src : BasicInfo) (job : ListDirJob)
    (st : DirState) : DirState :=
  match src with
  | .file srcX =>
    if s.deleteMode = DeleteMode.only then st
    else
      match dst with
      | .file dstX =>
        { st with toBeChecked := st.toBeChecked ++ [(srcX, dstX)] }
      | .subDir _ => { st with errs := st.errs + 1 }
  | .subDir r =>
    match dst with
    | .subDir _ =>
      if job.srcDepth > 0 ∧ job.dstDepth > 0 then
        { st with jobs :=
            st.jobs ++ [⟨r, job.srcDepth - 1, job.dstDepth - 1, false, false⟩] }
      else st
    | .file _ => { st with errs := st.errs + 1 }

/-- MatchRes is the classification the merge loop gives one name: present
in both listings, source only, or destination only. -/
inductive MatchRes
  | matched (src dst : BasicInfo)
  | onlySrc (src : BasicInfo)
  | onlyDst (dst : BasicInfo)
deriving Repr, DecidableEq

/-- mergeListings translates the matching loop of `_runDirAtATime` over
the two sorted listings.  The source loop walks two indices, nils out
the larger-named side and retries it (iDst-- and iSrc--); that is
exactly this recursion: advance only the side whose name is smaller,
both on a tie. -/
def mergeListings : List BasicInfo → List BasicInfo → List MatchRes
  | [], [] => []
  | s :: ss, [] => .onlySrc s :: mergeListings ss []
  | [], d :: ds => .onlyDst d :: mergeListings [] ds
  | s :: ss, d :: ds =>
    if s.remote < d.remote then .onlySrc s :: mergeListings ss (d :: ds)
    else if d.remote < s.remote then .onlyDst d :: mergeListings (s :: ss) ds
    else .matched s d :: mergeListings ss ds
termination_by ss ds => ss.length + ds.length

/-- classifyOne dispatches one merge classification to dstOnly, srcOnly
or transfer, the way the switch in `_runDirAtATime` does. -/
def classifyOne (s : SyncSetup) (job : ListDirJob) (st : DirState) :
    MatchRes → DirState
  | .matched src dst => transfer s dst src job st
  | .onlySrc src => srcOnly s src job st
  | .onlyDst dst => dstOnly s dst job st

/-- runDirAtATimeMerge is the processing `_runDirAtATime` performs after
both listings have arrived: classify every merge result in order. -/
def runDirAtATimeMerge (s : SyncSetup) (job : ListDirJob)
    (srcList dstList : List BasicInfo) (st : DirState) : DirState :=
  (mergeListings srcList dstList).foldl (classifyOne s job) st

/-- srcPart extracts the source entry a classification consumed. -/
def MatchRes.srcPart : MatchRes → Option BasicInfo
  | .matched s _ => some s
  | .onlySrc s => some s
  | .onlyDst _ => none

/-- dstPart extracts the destination entry a classification consumed. -/
def MatchRes.dstPart : MatchRes → Option BasicInfo
  | .matched _ d => some d
  | .onlySrc _ => none
  | .onlyDst d => some d

/-- sortedListing is a lexicographically strictly sorted listing, the
shape ListDirSorted delivers. -/
abbrev sortedListing (l : List BasicInfo) : Prop :=
  l.Pairwise (fun a b => a.remote < b.remote)

/-- The head of a sorted listing has the smallest name. -/
theorem sorted_head_lt (d : BasicInfo) (ds : List BasicInfo)
    (hds : sortedListing (d :: ds)) (x : String)
    (hx : x ∈ ds.map BasicInfo.remote) : d.remote < x := by
  rcases List.mem_map.mp hx with ⟨y, hy, rfl⟩
  exact (List.pairwise_cons.mp hds).1 y hy

/-- A name smaller than the head of a sorted listing occurs nowhere in
it. -/
theorem not_mem_map_of_lt_head (a : String) (d : BasicInfo)
    (ds : List BasicInfo) (hds : sortedListing (d :: ds))
    (hlt : a < d.remote) : a ∉ (d :: ds).map BasicInfo.remote := by
  intro hmem
  rw [List.map_cons] at hmem
  rcases List.mem_cons.mp hmem with h0 | h0
  · exact ne_of_lt hlt h0
  · exact lt_asymm hlt (sorted_head_lt d ds hds a h0)

/-- Every member of a sorted listing has a name at least the head's. -/
theorem mem_sorted_head_le (s' : BasicInfo) (ss : List BasicInfo)
    (s : BasicInfo) (hss : sortedListing (s' :: ss)) (hmem : s ∈ s' :: ss) :
    s'.remote ≤ s.remote := by
  rcases List.mem_cons.mp hmem with rfl | h0
  · exact le_refl _
  · exact le_of_lt ((List.pairwise_cons.mp hss).1 s h0)

/-- The merge consumes every source entry exactly once, in order. -/
theorem mergeListings_srcParts (ss ds : List BasicInfo) :
    (mergeListings ss ds).filterMap MatchRes.srcPart = ss := by
  induction ss, ds using mergeListings.induct with
  | case1 => simp [mergeListings]
  | case2 s ss ih =>
    simp only [mergeListings, List.filterMap_cons, MatchRes.srcPart, ih]
  | case3 d ds ih =>
    simp only [mergeListings, List.filterMap_cons, MatchRes.srcPart, ih]
  | case4 s ss d ds h ih =>
    simp only [mergeListings, if_pos h, List.filterMap_cons, MatchRes.srcPart, ih]
  | case5 s ss d ds h1 h2 ih =>
    simp only [mergeListings, if_neg h1, if_pos h2, List.filterMap_cons,
      MatchRes.srcPart, ih]
  | case6 s ss d ds h1 h2 ih =>
    simp only [mergeListings, if_neg h1, if_neg h2, List.filterMap_cons,
      MatchRes.srcPart, ih]

/-- The merge consumes every destination entry exactly once, in order. -/
theorem mergeListings_dstParts (ss ds : List BasicInfo) :
    (mergeListings ss ds).filterMap MatchRes.dstPart = ds := by
  induction ss, ds using mergeListings.induct with
  | case1 => simp [mergeListings]
  | case2 s ss ih =>
    simp only [mergeListings, List.filterMap_cons, MatchRes.dstPart, ih]
  | case3 d ds ih =>
    simp only [mergeListings, List.filterMap_cons, MatchRes.dstPart, ih]
  | case4 s ss d ds h ih =>
    simp only [mergeListings, if_pos h, List.filterMap_cons, MatchRes.dstPart, ih]
  | case5 s ss d ds h1 h2 ih =>
    simp only [mergeListings, if_neg h1, if_pos h2, List.filterMap_cons,
      MatchRes.dstPart, ih]
  | case6 s ss d ds h1 h2 ih =>
    simp only [mergeListings, if_neg h1, if_neg h2, List.filterMap_cons,
      MatchRes.dstPart, ih]

/-- A source-only classification comes from the source listing. -/
theorem onlySrc_mem_src (ss ds : List BasicInfo) (s : BasicInfo)
    (h : MatchRes.onlySrc s ∈ mergeListings ss ds) : s ∈ ss := by
  rw [show ss = (mergeListings ss ds).filterMap MatchRes.srcPart from
    (mergeListings_srcParts ss ds).symm]
  exact List.mem_filterMap.mpr ⟨MatchRes.onlySrc s, h, rfl⟩

/-- A destination-only classification comes from the destination
listing. -/
theorem onlyDst_mem_dst (ss ds : List BasicInfo) (d : BasicInfo)
    (h : MatchRes.onlyDst d ∈ mergeListings ss ds) : d ∈ ds := by
  rw [show ds = (mergeListings ss ds).filterMap MatchRes.dstPart from
    (mergeListings_dstParts ss ds).symm]
  exact List.mem_filterMap.mpr ⟨MatchRes.onlyDst d, h, rfl⟩

/-- A matched classification pairs entries of equal name. -/
theorem matched_name_eq (ss ds : List BasicInfo) (s d : BasicInfo)
    (h : MatchRes.matched s d ∈ mergeListings ss ds) : s.remote = d.remote := by
  induction ss, ds using mergeListings.induct with
  | case1 => simp [mergeListings] at h
  | case2 s' ss ih =>
    rw [mergeListings] at h
    rcases List.mem_cons.mp h with h0 | h0
    · exact MatchRes.noConfusion h0
    · exact ih h0
  | case3 d' ds ih =>
    rw [mergeListings] at h
    rcases List.mem_cons.mp h with h0 | h0
    · exact MatchRes.noConfusion h0
    · exact ih h0
  | case4 s' ss d' ds hlt ih =>
    rw [mergeListings, if_pos hlt] at h
    rcases List.mem_cons.mp h with h0 | h0
    · exact MatchRes.noConfusion h0
    · exact ih h0
  | case5 s' ss d' ds h1 h2 ih =>
    rw [mergeListings, if_neg h1, if_pos h2] at h
    rcases List.mem_cons.mp h with h0 | h0
    · exact MatchRes.noConfusion h0
    · exact ih h0
  | case6 s' ss d' ds h1 h2 ih =>
    rw [mergeListings, if_neg h1, if_neg h2] at h
    rcases List.mem_cons.mp h with h0 | h0
    · injection h0 with hs hd
      subst hs
      subst hd
      exact le_antisymm (not_lt.mp h2) (not_lt.mp h1)
    · exact ih h0

/-- Over sorted listings, a source-only classification means the name is
absent from the destination listing. -/
theorem mergeListings_onlySrc_absent (ss ds : List BasicInfo) :
    sortedListing ss → sortedListing ds → ∀ s : BasicInfo,
      MatchRes.onlySrc s ∈ mergeListings ss ds →
      s.remote ∉ ds.map BasicInfo.remote := by
  induction ss, ds using mergeListings.induct with
  | case1 =>
    intro _ _ s h
    simp [mergeListings] at h
  | case2 s' ss ih =>
    intro _ _ s _
    simp
  | case3 d' ds ih =>
    intro hss hds s h
    rw [mergeListings] at h
    rcases List.mem_cons.mp h with h0 | h0
    · exact MatchRes.noConfusion h0
    · exact absurd (onlySrc_mem_src [] ds s h0) (List.not_mem_nil s)
  | case4 s' ss d' ds hlt ih =>
    intro hss hds s h
    rw [mergeListings, if_pos hlt] at h
    rcases List.mem_cons.mp h with h0 | h0
    · injection h0 with hs
      subst hs
      exact not_mem_map_of_lt_head s.remote d' ds hds hlt
    · exact ih (List.pairwise_cons.mp hss).2 hds s h0
  | case5 s' ss d' ds h1 h2 ih =>
    intro hss hds s h
    rw [mergeListings, if_neg h1, if_pos h2] at h
    rcases List.mem_cons.mp h with h0 | h0
    · exact MatchRes.noConfusion h0
    · have hnot : s.remote ∉ ds.map BasicInfo.remote :=
        ih hss (List.pairwise_cons.mp hds).2 s h0
      have hgt : d'.remote < s.remote :=
        lt_of_lt_of_le h2
          (mem_sorted_head_le s' ss s hss (onlySrc_mem_src _ _ s h0))
      intro hmem
      rw [List.map_cons] at hmem
      rcases List.mem_cons.mp hmem with h3 | h3
      · exact (ne_of_lt hgt).symm h3
      · exact hnot h3
  | case6 s' ss d' ds h1 h2 ih =>
    intro hss hds s h
    rw [mergeListings, if_neg h1, if_neg h2] at h
    rcases List.mem_cons.mp h with h0 | h0
    · exact MatchRes.noConfusion h0
    · have hnot : s.remote ∉ ds.map BasicInfo.remote :=
        ih (List.pairwise_cons.mp hss).2 (List.pairwise_cons.mp hds).2 s h0
      have hname : s'.remote = d'.remote :=
        le_antisymm (not_lt.mp h2) (not_lt.mp h1)
      have hgt : d'.remote < s.remote := by
        rw [← hname]
        exact (List.pairwise_cons.mp hss).1 s (onlySrc_mem_src _ _ s h0)
      intro hmem
      rw [List.map_cons] at hmem
      rcases List.mem_cons.mp hmem with h3 | h3
      · exact (ne_of_lt hgt).symm h3
      · exact hnot h3

/-- Over sorted listings, a destination-only classification means the
name is absent from the source listing. -/
theorem mergeListings_onlyDst_absent (ss ds : List BasicInfo) :
    sortedListing ss → sortedListing ds → ∀ d : BasicInfo,
      MatchRes.onlyDst d ∈ mergeListings ss ds →
      d.remote ∉ ss.map BasicInfo.remote := by
  induction ss, ds using mergeListings.induct with
  | case1 =>
    intro _ _ d h
    simp [mergeListings] at h
  | case2 s' ss ih =>
    intro hss hds d h
    have hmem := onlyDst_mem_dst (s' :: ss) [] d h
    exact absurd hmem (List.not_mem_nil d)
  | case3 d' ds ih =>
    intro _ _ d _
    simp
  | case4 s' ss d' ds hlt ih =>
    intro hss hds d h
    rw [mergeListings, if_pos hlt] at h
    rcases List.mem_cons.mp h with h0 | h0
    · exact MatchRes.noConfusion h0
    · have hnot : d.remote ∉ ss.map BasicInfo.remote :=
        ih (List.pairwise_cons.mp hss).2 hds d h0
      have hgt : s'.remote < d.remote :=
        lt_of_lt_of_le hlt
          (mem_sorted_head_le d' ds d hds (onlyDst_mem_dst _ _ d h0))
      intro hmem
      rw [List.map_cons] at hmem
      rcases List.mem_cons.mp hmem with h3 | h3
      · exact (ne_of_lt hgt).symm h3
      · exact hnot h3
  | case5 s' ss d' ds h1 h2 ih =>
    intro hss hds d h
    rw [mergeListings, if_neg h1, if_pos h2] at h
    rcases List.mem_cons.mp h with h0 | h0
    · injection h0 with hd
      subst hd
      exact not_mem_map_of_lt_head d.remote s' ss hss h2
    · exact ih hss (List.pairwise_cons.mp hds).2 d h0
  | case6 s' ss d' ds h1 h2 ih =>
    intro hss hds d h
    rw [mergeListings, if_neg h1, if_neg h2] at h
    rcases List.mem_cons.mp h with h0 | h0
    · exact MatchRes.noConfusion h0
    · have hnot : d.remote ∉ ss.map BasicInfo.remote :=
        ih (List.pairwise_cons.mp hss).2 (List.pairwise_cons.mp hds).2 d h0
      have hname : s'.remote = d'.remote :=
        le_antisymm (not_lt.mp h2) (not_lt.mp h1)
      have hgt : s'.remote < d.remote := by
        rw [hname]
        exact (List.pairwise_cons.mp hds).1 d (onlyDst_mem_dst _ _ d h0)
      intro hmem
      rw [List.map_cons] at hmem
      rcases List.mem_cons.mp hmem with h3 | h3
      · exact (ne_of_lt hgt).symm h3
      · exact hnot h3

/-- Over sorted listings, entries of equal name in both listings are
classified as a matched pair. -/
theorem mergeListings_matched_mem (ss ds : List BasicInfo) :
    sortedListing ss → sortedListing ds → ∀ s d : BasicInfo,
      s ∈ ss → d ∈ ds → s.remote = d.remote →
      MatchRes.matched s d ∈ mergeListings ss ds := by
  induction ss, ds using mergeListings.induct with
  | case1 =>
    intro _ _ s d hs _ _
    exact absurd hs (List.not_mem_nil s)
  | case2 s' ss ih =>
    intro _ _ s d _ hd _
    exact absurd hd (List.not_mem_nil d)
  | case3 d' ds ih =>
    intro _ _ s d hs _ _
    exact absurd hs (List.not_mem_nil s)
  | case4 s' ss d' ds hlt ih =>
    intro hss hds s d hs hd heq
    rw [mergeListings, if_pos hlt]
    rcases List.mem_cons.mp hs with rfl | hs0
    · exfalso
      have hle : d'.remote ≤ d.remote := mem_sorted_head_le d' ds d hds hd
      rw [heq] at hlt
      exact absurd hlt (not_lt.mpr hle)
    · exact List.mem_cons_of_mem _
        (ih (List.pairwise_cons.mp hss).2 hds s d hs0 hd heq)
  | case5 s' ss d' ds h1 h2 ih =>
    intro hss hds s d hs hd heq
    rw [mergeListings, if_neg h1, if_pos h2]
    rcases List.mem_cons.mp hd with rfl | hd0
    · exfalso
      have hle : s'.remote ≤ s.remote := mem_sorted_head_le s' ss s hss hs
      rw [← heq] at h2
      exact absurd h2 (not_lt.mpr hle)
    · exact List.mem_cons_of_mem _
        (ih hss (List.pairwise_cons.mp hds).2 s d hs hd0 heq)
  | case6 s' ss d' ds h1 h2 ih =>
    intro hss hds s d hs hd heq
    rw [mergeListings, if_neg h1, if_neg h2]
    have hname : s'.remote = d'.remote :=
      le_antisymm (not_lt.mp h2) (not_lt.mp h1)
    rcases List.mem_cons.mp hs with rfl | hs0
    · rcases List.mem_cons.mp hd with rfl | hd0
      · exact List.mem_cons_self _ _
      · exfalso
        have : d'.remote < d.remote := (List.pairwise_cons.mp hds).1 d hd0
        rw [← hname, ← heq] at this
        exact lt_irrefl _ this
    · rcases List.mem_cons.mp hd with rfl | hd0
      · exfalso
        have : s'.remote < s.remote := (List.pairwise_cons.mp hss).1 s hs0
        rw [hname, ← heq] at this
        exact lt_irrefl _ this
      · exact List.mem_cons_of_mem _
          (ih (List.pairwise_cons.mp hss).2 (List.pairwise_cons.mp hds).2
            s d hs0 hd0 heq)

/-- Claim C2 counterexample: in delete-only mode a name present in both
listings is classified as a matched file/file pair, yet the pair is not
emitted to the checker channel (and a source-only file is not queued
anywhere), refuting the unconditional routing in the claim. -/
theorem C2_dirMerge_counterexample :
    mergeListings [BasicInfo.file ⟨"a", 1, 0, true⟩]
        [BasicInfo.file ⟨"a", 2, 0, true⟩]
      = [MatchRes.matched (BasicInfo.file ⟨"a", 1, 0, true⟩)
          (BasicInfo.file ⟨"a", 2, 0, true⟩)] ∧
    (runDirAtATimeMerge ⟨DeleteMode.only, false, false, none⟩
        ⟨"", 5, 5, false, false⟩
        [BasicInfo.file ⟨"a", 1, 0, true⟩] [BasicInfo.file ⟨"a", 2, 0, true⟩]
        ⟨[], [], [], [], [], 0, 0, []⟩).toBeChecked = [] := by
  have hmerge : mergeListings [BasicInfo.file ⟨"a", 1, 0, true⟩]
      [BasicInfo.file ⟨"a", 2, 0, true⟩]
      = [MatchRes.matched (BasicInfo.file ⟨"a", 1, 0, true⟩)
          (BasicInfo.file ⟨"a", 2, 0, true⟩)] := by
    rw [mergeListings]
    simp only [BasicInfo.remote]
    rw [if_neg (lt_irrefl _), if_neg (lt_irrefl _)]
    rw [mergeListings]
  refine ⟨hmerge, ?_⟩
  rw [runDirAtATimeMerge, hmerge]
  rfl

/-- Claim C2 (amended): over sorted listings the merge classifies every
entry exactly once and in order; a name in both listings becomes a
matched pair, a name only in the source becomes source-only, a name only
in the destination becomes destination-only; and the routing is: matched
file/file pairs go to the checker channel unless the delete mode is
delete-only; matched dir/dir pairs recurse while both depths remain;
source-only entries are ignored in delete-only mode, otherwise a file is
queued as a rename candidate when rename tracking is on and uploaded
directly otherwise, and a directory recurses (destination suppressed)
while source depth remains; destination-only entries are ignored when
the delete mode is off, otherwise a file is recorded for later deletion
(delete-after) or sent to the delete channel (delete-during and
delete-only), and a directory recurses (source suppressed) while
destination depth remains. -/
theorem C2_dirMerge_classification (s : SyncSetup) (job : ListDirJob)
    (srcList dstList : List BasicInfo) (st : DirState) (sx dx : Object)
    (rs rd : String) (se de : BasicInfo)
    (hsrc : sortedListing srcList) (hdst : sortedListing dstList) :
    ((mergeListings srcList dstList).filterMap MatchRes.srcPart = srcList ∧
     (mergeListings srcList dstList).filterMap MatchRes.dstPart = dstList) ∧
    (se ∈ srcList → de ∈ dstList → se.remote = de.remote →
      MatchRes.matched se de ∈ mergeListings srcList dstList) ∧
    (MatchRes.matched se de ∈ mergeListings srcList dstList →
      se.remote = de.remote) ∧
    (MatchRes.onlySrc se ∈ mergeListings srcList dstList →
      se ∈ srcList ∧ se.remote ∉ dstList.map BasicInfo.remote) ∧
    (MatchRes.onlyDst de ∈ mergeListings srcList dstList →
      de ∈ dstList ∧ de.remote ∉ srcList.map BasicInfo.remote) ∧
    (s.deleteMode ≠ DeleteMode.only →
      classifyOne s job st (.matched (.file sx) (.file dx))
        = { st with toBeChecked := st.toBeChecked ++ [(sx, dx)] }) ∧
    (s.deleteMode = DeleteMode.only →
      classifyOne s job st (.matched (.file sx) (.file dx)) = st) ∧
    (classifyOne s job st (.matched (.subDir rs) (.subDir rd))
      = if job.srcDepth > 0 ∧ job.dstDepth > 0 then
          { st with jobs := st.jobs ++
              [⟨rs, job.srcDepth - 1, job.dstDepth - 1, false, false⟩] }
        else st) ∧
    (s.deleteMode ≠ DeleteMode.only →
      classifyOne s job st (.onlySrc (.file sx))
        = if s.trackRenames then
            { st with trackRenamesCh := st.trackRenamesCh ++ [sx] }
          else
            { st with toBeUploaded := st.toBeUploaded ++ [sx] }) ∧
    (s.deleteMode ≠ DeleteMode.only →
      classifyOne s job st (.onlySrc (.subDir rs))
        = if job.srcDepth > 0 then
            { st with jobs := st.jobs ++ [⟨rs, job.srcDepth - 1, 0, false, true⟩] }
          else st) ∧
    (s.deleteMode = DeleteMode.only →
      classifyOne s job st (.onlySrc (.file sx)) = st ∧
      classifyOne s job st (.onlySrc (.subDir rs)) = st) ∧
    (s.deleteMode = DeleteMode.off →
      classifyOne s job st (.onlyDst (.file dx)) = st ∧
      classifyOne s job st (.onlyDst (.subDir rd)) = st) ∧
    (s.deleteMode = DeleteMode.after →
      classifyOne s job st (.onlyDst (.file dx))
        = { st with dstFiles := mapInsert st.dstFiles dx.remote dx }) ∧
    (s.deleteMode = DeleteMode.during ∨ s.deleteMode = DeleteMode.only →
      classifyOne s job st (.onlyDst (.file dx))
        = { st with deleteFilesCh := st.deleteFilesCh ++ [dx] }) ∧
    (s.deleteMode ≠ DeleteMode.off →
      classifyOne s job st (.onlyDst (.subDir rd))
        = if job.dstDepth > 0 then
            { st with jobs := st.jobs ++ [⟨rd, 0, job.dstDepth - 1, true, false⟩] }
          else st) := by
  refine ⟨⟨mergeListings_srcParts _ _, mergeListings_dstParts _ _⟩,
    fun hs hd he => mergeListings_matched_mem _ _ hsrc hdst se de hs hd he,
    fun hm => matched_name_eq _ _ se de hm,
    fun hm => ⟨onlySrc_mem_src _ _ se hm,
      mergeListings_onlySrc_absent _ _ hsrc hdst se hm⟩,
    fun hm => ⟨onlyDst_mem_dst _ _ de hm,
      mergeListings_onlyDst_absent _ _ hsrc hdst de hm⟩,
    fun h => ?_, fun h => ?_, ?_, fun h => ?_, fun h => ?_,
    fun h => ⟨?_, ?_⟩, fun h => ⟨?_, ?_⟩, fun h => ?_, fun h => ?_, fun h => ?_⟩
  · simp [classifyOne, transfer, h]
  · simp [classifyOne, transfer, h]
  · rfl
  · simp [classifyOne, srcOnly, h]
  · simp [classifyOne, srcOnly, h]
  · simp [classifyOne, srcOnly, h]
  · simp [classifyOne, srcOnly, h]
  · simp [classifyOne, dstOnly, h]
  · simp [classifyOne, dstOnly, h]
  · simp [classifyOne, dstOnly, h]
  · rcases h with h | h <;> simp [classifyOne, dstOnly, h]
  · simp [classifyOne, dstOnly, h]

/-- wSetup is a concrete sync setup used by the C2 witness. -/
def wSetup : SyncSetup := ⟨DeleteMode.after, false, false, none⟩

/-- wJob is a concrete directory job used by the C2 witness. -/
def wJob : ListDirJob := ⟨"", 3, 2, false, false⟩

/-- wSrcObj is a concrete source object used by the C2 witness. -/
def wSrcObj : Object := ⟨"a", 1, 0, true⟩

/-- wDstObj is a concrete destination object used by the C2 witness. -/
def wDstObj : Object := ⟨"a", 2, 0, true⟩

/-- wSt is the empty directory state used by the C2 witness. -/
def wSt : DirState := ⟨[], [], [], [], [], 0, 0, []⟩

/-- Witness for the amended C2 at concrete singleton listings. -/
theorem C2_dirMerge_classification_witness :
    ((mergeListings [BasicInfo.file wSrcObj] [BasicInfo.file wDstObj]).filterMap
        MatchRes.srcPart = [BasicInfo.file wSrcObj] ∧
     (mergeListings [BasicInfo.file wSrcObj] [BasicInfo.file wDstObj]).filterMap
        MatchRes.dstPart = [BasicInfo.file wDstObj]) ∧
    (BasicInfo.file wSrcObj ∈ [BasicInfo.file wSrcObj] →
      BasicInfo.file wDstObj ∈ [BasicInfo.file wDstObj] →
      (BasicInfo.file wSrcObj).remote = (BasicInfo.file wDstObj).remote →
      MatchRes.matched (BasicInfo.file wSrcObj) (BasicInfo.file wDstObj)
        ∈ mergeListings [BasicInfo.file wSrcObj] [BasicInfo.file wDstObj]) ∧
    (MatchRes.matched (BasicInfo.file wSrcObj) (BasicInfo.file wDstObj)
        ∈ mergeListings [BasicInfo.file wSrcObj] [BasicInfo.file wDstObj] →
      (BasicInfo.file wSrcObj).remote = (BasicInfo.file wDstObj).remote) ∧
    (MatchRes.onlySrc (BasicInfo.file wSrcObj)
        ∈ mergeListings [BasicInfo.file wSrcObj] [BasicInfo.file wDstObj] →
      BasicInfo.file wSrcObj ∈ [BasicInfo.file wSrcObj] ∧
      (BasicInfo.file wSrcObj).remote
        ∉ [BasicInfo.file wDstObj].map BasicInfo.remote) ∧
    (MatchRes.onlyDst (BasicInfo.file wDstObj)
        ∈ mergeListings [BasicInfo.file wSrcObj] [BasicInfo.file wDstObj] →
      BasicInfo.file wDstObj ∈ [BasicInfo.file wDstObj] ∧
      (BasicInfo.file wDstObj).remote
        ∉ [BasicInfo.file wSrcObj].map BasicInfo.remote) ∧
    (wSetup.deleteMode ≠ DeleteMode.only →
      classifyOne wSetup wJob wSt (.matched (.file wSrcObj) (.file wDstObj))
        = { wSt with toBeChecked := wSt.toBeChecked ++ [(wSrcObj, wDstObj)] }) ∧
    (wSetup.deleteMode = DeleteMode.only →
      classifyOne wSetup wJob wSt (.matched (.file wSrcObj) (.file wDstObj))
        = wSt) ∧
    (classifyOne wSetup wJob wSt (.matched (.subDir "p") (.subDir "q"))
      = if wJob.srcDepth > 0 ∧ wJob.dstDepth > 0 then
          { wSt with jobs := wSt.jobs ++
              [⟨"p", wJob.srcDepth - 1, wJob.dstDepth - 1, false, false⟩] }
        else wSt) ∧
    (wSetup.deleteMode ≠ DeleteMode.only →
      classifyOne wSetup wJob wSt (.onlySrc (.file wSrcObj))
        = if wSetup.trackRenames then
            { wSt with trackRenamesCh := wSt.trackRenamesCh ++ [wSrcObj] }
          else
            { wSt with toBeUploaded := wSt.toBeUploaded ++ [wSrcObj] }) ∧
    (wSetup.deleteMode ≠ DeleteMode.only →
      classifyOne wSetup wJob wSt (.onlySrc (.subDir "p"))
        = if wJob.srcDepth > 0 then
            { wSt with jobs := wSt.jobs ++ [⟨"p", wJob.srcDepth - 1, 0, false, true⟩] }
          else wSt) ∧
    (wSetup.deleteMode = DeleteMode.only →
      classifyOne wSetup wJob wSt (.onlySrc (.file wSrcObj)) = wSt ∧
      classifyOne wSetup wJob wSt (.onlySrc (.subDir "p")) = wSt) ∧
    (wSetup.deleteMode = DeleteMode.off →
      classifyOne wSetup wJob wSt (.onlyDst (.file wDstObj)) = wSt ∧
      classifyOne wSetup wJob wSt (.onlyDst (.subDir "q")) = wSt) ∧
    (wSetup.deleteMode = DeleteMode.after →
      classifyOne wSetup wJob wSt (.onlyDst (.file wDstObj))
        = { wSt with dstFiles := mapInsert wSt.dstFiles wDstObj.remote wDstObj }) ∧
    (wSetup.deleteMode = DeleteMode.during ∨ wSetup.deleteMode = DeleteMode.only →
      classifyOne wSetup wJob wSt (.onlyDst (.file wDstObj))
        = { wSt with deleteFilesCh := wSt.deleteFilesCh ++ [wDstObj] }) ∧
    (wSetup.deleteMode ≠ DeleteMode.off →
      classifyOne wSetup wJob wSt (.onlyDst (.subDir "q"))
        = if wJob.dstDepth > 0 then
            { wSt with jobs := wSt.jobs ++ [⟨"q", 0, wJob.dstDepth - 1, true, false⟩] }
          else wSt) :=
  C2_dirMerge_classification wSetup wJob [BasicInfo.file wSrcObj]
    [BasicInfo.file wDstObj] wSt wSrcObj wDstObj "p" "q"
    (BasicInfo.file wSrcObj) (BasicInfo.file wDstObj) (by simp) (by simp)

/-- ListingHeader defines the first line of a bisync listing, translated
from the `ListingHeader` constant. -/
def ListingHeader : String := "# bisync listing v1 from"

/-- FileInfo describes a file in a listing, translated from `fileInfo`.
The modification time is modelled as its rendered text in the listing
time format (timeFormat, zone TZ), since Go time formatting itself is
out of scope. -/
structure FileInfo where
  size : Int
  time : String
  hash : String
  id : String
  flags : String
deriving Repr, DecidableEq

/-- FileList represents a listing, translated from `fileList`: the file
names in insertion order, the name-to-info map, and the rendered name of
the listing's hash type (empty for hash.None). -/
structure FileList where
  list : List String
  info : List (String × FileInfo)
  hashName : String
deriving Repr, DecidableEq

/-- lookupInfo is a map lookup on the info association list. -/
def lookupInfo (m : List (String × FileInfo)) (file : String) : Option FileInfo :=
  match m with
  | [] => none
  | (k, v) :: rest => if k = file then some v else lookupInfo rest file

/-- padLeft pads a string on the left with spaces to the given width,
the way the `%8d` verb of the line format does. -/
def padLeft (w : Nat) (s : String) : String :=
  String.mk (List.replicate (w - s.length) ' ') ++ s

/-- quoteName models the `%q` verb on a name that needs no escaping:
the name wrapped in double quotes. -/
def quoteName (name : String) : String := "\"" ++ name ++ "\""

/-- formatLine renders one entry line of a listing: flags, padded size,
hash, id, mtime and quoted name separated by single spaces, translated
from the save loop body and lineFormat `%s %8d %s %s %s %q`. -/
def formatLine (hashName : String) (remote : String) (fi : FileInfo) : String :=
  let hashStr := if hashName ≠ "" ∧ fi.hash ≠ "" then hashName ++ ":" ++ fi.hash
    else "-"
  let idStr := if fi.id = "" then "-" else fi.id
  let flagsStr := if fi.flags = "" then "-" else fi.flags
  flagsStr ++ " " ++ padLeft 8 (toString fi.size) ++ " " ++ hashStr ++ " " ++
    idStr ++ " " ++ fi.time ++ " " ++ quoteName remote

/-- sortNames models `fileList.sort`, the stable sort by path name run
at the start of save. -/
def sortNames (l : List String) : List String :=
  l.mergeSort (fun a b => a ≤ b)

/-- save translates `save`: one header line carrying the current time,
then one formatted line per entry in sorted name order.  A name missing
from the info map (impossible for well-formed lists; Go would panic)
renders as an empty line. -/
def save (ls : FileList) (now : String) : List String :=
  (ListingHeader ++ " " ++ now) ::
    (sortNames ls.list).map (fun remote =>
      match lookupInfo ls.info remote with
      | some fi => formatLine ls.hashName remote fi
      | none => "")

/-- isWhite is the regexp whitespace class (the complement of `\S`). -/
def isWhite (c : Char) : Bool :=
  c == ' ' || c == '\t' || c == '\n' || c == '\r' || c == '\x0c'

/-- patChar interprets one pattern character: D a digit, S a sign,
anything else itself. -/
def patChar (p c : Char) : Bool :=
  if p = 'D' then c.isDigit
  else if p = 'S' then c = '+' ∨ c = '-'
  else c = p

/-- matchPattern consumes input matching the pattern character by
character, returning the rest of the input. -/
def matchPattern : List Char → List Char → Option (List Char)
  | [], cs => some cs
  | _ :: _, [] => none
  | p :: ps, c :: cs => if patChar p c then matchPattern ps cs else none

/-- timestampPat is the timestamp group of lineRegex,
the pattern of the timeFormat rendering. -/
def timestampPat : List Char := "DDDD-DD-DDTDD:DD:DD.DDDDDDDDDSDDDD".data

/-- timestampShaped holds when a string is exactly one timestamp. -/
def timestampShaped (s : String) : Bool :=
  matchPattern timestampPat s.data = some []

/-- ParsedLine is the list of submatches of lineRegex on one entry
line: flags, size, hash, id, mtime, and the still-quoted name. -/
structure ParsedLine where
  flags : String
  sizeStr : String
  hashStr : String
  idStr : String
  timeStr : String
  nameStr : String
deriving Repr, DecidableEq

/-- takeToken1 takes a nonempty maximal run of characters satisfying p,
the way a greedy one-or-more character class group matches. -/
def takeToken1 (p : Char → Bool) (cs : List Char) :
    Option (List Char × List Char) :=
  match cs.takeWhile p with
  | [] => none
  | tok => some (tok, cs.dropWhile p)

/-- checkLit consumes one expected literal character. -/
def checkLit (ch : Char) : List Char → Option (List Char)
  | [] => none
  | c :: cs => if c = ch then some cs else none

/-- takeNumber consumes `-?\d+`: an optional minus sign followed by a
nonempty digit run. -/
def takeNumber (cs : List Char) : Option (List Char × List Char) :=
  if cs.head? = some '-' then
    match takeToken1 Char.isDigit (cs.drop 1) with
    | some (ds, rest) => some ('-' :: ds, rest)
    | none => none
  else takeToken1 Char.isDigit cs

/-- checkQuoted checks the final `(".+")$` group: the whole remainder is
double-quoted, nonempty inside, and free of newlines (which `.` does not
match). -/
def checkQuoted (cs : List Char) : Bool :=
  match cs with
  | '"' :: nameTail =>
    decide (nameTail.length ≥ 2) && (nameTail.getLast? == some '"') &&
      ! cs.contains '\n'
  | _ => false

/-- parseLine models lineRegex
`^(\S) +(-?\d+) (\S+) (\S+) (<timestamp>) (".+")$` as a deterministic
parser (the pattern has no ambiguity: `\S` and `\d` cannot match the
separating spaces, and the final group runs to the end of the line). -/
def parseLine (line : String) : Option ParsedLine :=
  match line.data with
  | [] => none
  | c :: rest =>
    if isWhite c then none
    else do
      let (_, rest1) ← takeToken1 (fun x => x == ' ') rest
      let (sizeChars, rest2) ← takeNumber rest1
      let rest3 ← checkLit ' ' rest2
      let (hashChars, rest4) ← takeToken1 (fun x => ! isWhite x) rest3
      let rest5 ← checkLit ' ' rest4
      let (idChars, rest6) ← takeToken1 (fun x => ! isWhite x) rest5
      let rest7 ← checkLit ' ' rest6
      let rest8 ← matchPattern timestampPat rest7
      let timeChars := rest7.take (rest7.length - rest8.length)
      let rest9 ← checkLit ' ' rest8
      if checkQuoted rest9 then
        some ⟨String.mk [c], String.mk sizeChars, String.mk hashChars,
          String.mk idChars, String.mk timeChars, String.mk rest9⟩
      else none

/-- parseHash translates `parseHash`: "-" means no hash, otherwise the
text before the first colon (which must not be first) names the hash
type and the nonempty rest is the value. -/
def parseHash (str : String) : Option (String × String) :=
  if str = "-" then some ("", "")
  else
    let before := str.data.takeWhile (fun c => c ≠ ':')
    let after := str.data.dropWhile (fun c => c ≠ ':')
    if after.head? = some ':' ∧ before.length > 0 ∧ (after.drop 1).length > 0 then
      some (String.mk before, String.mk (after.drop 1))
    else none

/-- decodeDigits reads a digit string as a number. -/
def decodeDigits (cs : List Char) : Nat :=
  cs.foldl (fun acc c => acc * 10 + (c.toNat - '0'.toNat)) 0

/-- decodeInt models strconv.ParseInt on a string already known to be
`-?\d+` (the 64-bit range check is not modelled). -/
def decodeInt (s : String) : Int :=
  match s.data with
  | '-' :: tl => - (decodeDigits tl : Int)
  | cs => (decodeDigits cs : Int)

/-- unquoteName models strconv.Unquote on the escape-free fragment the
listings use: strip the surrounding double quotes, rejecting inner
quotes, backslashes and newlines (which would involve escape
sequences). -/
def unquoteName (s : String) : Option String :=
  if s.data.head? = some '"' ∧ s.data.getLast? = some '"' ∧
      2 ≤ s.data.length then
    let inner := (s.data.drop 1).dropLast
    if inner.all (fun c => c ≠ '"' ∧ c ≠ '\\' ∧ c ≠ '\n') then
      some (String.mk inner)
    else none
  else none

/-- fileListHas models `fileList.has` (for the unescaped names the
claims concern, the unquoting fallback looks up the same key). -/
def fileListHas (ls : FileList) (file : String) : Bool :=
  (lookupInfo ls.info file).isSome

/-- timeStrAfter models `time.After` on two timestamps rendered in the
same zone, where lexicographic order is chronological order. -/
def timeStrAfter (a b : String) : Bool := b < a

/-- fileListAfterTime translates `fileList.afterTime`. -/
def fileListAfterTime (ls : FileList) (file : String) (t : String) : Bool :=
  match lookupInfo ls.info file with
  | none => false
  | some fi => timeStrAfter fi.time t

/-- putMergeTime stands for the precision-preserving time merge in
`fileList.put` for an already-present file (keep the old time when the
new one is less than a second older).  No claim concerns duplicate
entries, so the merge is modelled as taking the incoming time. -/
def putMergeTime (oldTime newTime : String) : String :=
  newTime

/-- replaceInfo overwrites the info of an existing file. -/
def replaceInfo (m : List (String × FileInfo)) (file : String)
    (fi : FileInfo) : List (String × FileInfo) :=
  m.map (fun p => if p.1 = file then (p.1, fi) else p)

/-- fileListPut translates `fileList.put`: update the info of a present
file, otherwise append a new entry to both the list and the map. -/
def fileListPut (ls : FileList) (file : String) (size : Int)
    (modtime : String) (hash id flags : String) : FileList :=
  match lookupInfo ls.info file with
  | some fi =>
    ⟨ls.list,
      replaceInfo ls.info file
        ⟨size, putMergeTime fi.time modtime, hash, id, flags⟩,
      ls.hashName⟩
  | none =>
    ⟨ls.list ++ [file],
      ls.info ++ [(file, ⟨size, modtime, hash, id, flags⟩)],
      ls.hashName⟩

/-- loadListingStep translates one iteration of the loadListing loop on
state (listing so far, lastHashName): skip empty and '#' lines, drop
lines the regex rejects, handle the hash-name bookkeeping (which
persists even when the line is dropped later), drop lines failing the
flags/id/mtime/name checks, and put the entry, preferring the latest
time on duplicates.  `hash.Set` is modelled as accepting any nonempty
hash name. -/
def loadListingStep (st : FileList × String) (line : String) :
    FileList × String :=
  let ls := st.1
  let lastHashName := st.2
  if line = "" ∨ line.data.head? = some '#' then st
  else
    match parseLine line with
    | none => st
    | some m =>
      match parseHash m.hashStr with
      | none => st
      | some (hashName, hashVal) =>
        if hashName ≠ "" ∧ lastHashName ≠ "" ∧ hashName ≠ lastHashName then
          st
        else
          let isFirstHash := hashName ≠ "" ∧ lastHashName = ""
          let newLast := if isFirstHash then hashName else lastHashName
          let ls1 : FileList :=
            if isFirstHash then ⟨ls.list, ls.info, hashName⟩ else ls
          if (m.flags ≠ "-" ∧ m.flags ≠ "d") ∨ m.idStr ≠ "-" ∨
              ¬ timestampShaped m.timeStr then
            (ls1, newLast)
          else
            match unquoteName m.nameStr with
            | none => (ls1, newLast)
            | some nameVal =>
              if fileListHas ls1 nameVal ∧
                  fileListAfterTime ls1 nameVal m.timeStr then
                (ls1, newLast)
              else
                (fileListPut ls1 nameVal (decodeInt m.sizeStr) m.timeStr
                  hashVal m.idStr m.flags, newLast)

/-- loadListing translates `loadListing` over the lines of a listing
file. -/
def loadListing (lines : List String) : FileList × String :=
  lines.foldl loadListingStep (⟨[], [], ""⟩, "")

/-- takeWhile and dropWhile split a run of satisfying characters at the
first failing one. -/
theorem takeWhile_dropWhile_append (p : Char → Bool) (xs : List Char)
    (y : Char) (rest : List Char) (hxs : ∀ c ∈ xs, p c = true)
    (hy : p y = false) :
    (xs ++ y :: rest).takeWhile p = xs ∧
    (xs ++ y :: rest).dropWhile p = y :: rest := by
  induction xs with
  | nil => simp [List.takeWhile_cons, List.dropWhile_cons, hy]
  | cons a tl ih =>
    have ha : p a = true := hxs a (by simp)
    have ih' := ih (fun c hc => hxs c (by simp [hc]))
    simp [List.takeWhile_cons, List.dropWhile_cons, ha, ih'.1, ih'.2]

/-- takeToken1 takes exactly the leading satisfying run. -/
theorem takeToken1_append (p : Char → Bool) (xs : List Char) (y : Char)
    (rest : List Char) (hne : xs ≠ []) (hxs : ∀ c ∈ xs, p c = true)
    (hy : p y = false) :
    takeToken1 p (xs ++ y :: rest) = some (xs, y :: rest) := by
  obtain ⟨htw, hdw⟩ := takeWhile_dropWhile_append p xs y rest hxs hy
  rw [takeToken1, htw, hdw]
  cases xs with
  | nil => exact absurd rfl hne
  | cons a tl => rfl

/-- checkLit consumes exactly the expected character. -/
theorem checkLit_cons (ch : Char) (rest : List Char) :
    checkLit ch (ch :: rest) = some rest := by
  simp [checkLit]

/-- numShapedL describes the characters `%d` produces: an optional
minus sign followed by a nonempty digit run. -/
def numShapedL (cs : List Char) : Bool :=
  if cs.head? = some '-' then
    ! (cs.drop 1).isEmpty && (cs.drop 1).all Char.isDigit
  else
    ! cs.isEmpty && cs.all Char.isDigit

/-- numShaped lifts numShapedL to strings. -/
def numShaped (s : String) : Bool := numShapedL s.data

/-- takeNumber consumes exactly a well-shaped number before a space. -/
theorem takeNumber_append (sizeChars rest : List Char)
    (h : numShapedL sizeChars = true) :
    takeNumber (sizeChars ++ ' ' :: rest) = some (sizeChars, ' ' :: rest) := by
  by_cases hh : sizeChars.head? = some '-'
  · cases sizeChars with
    | nil => simp at hh
    | cons c tl =>
      simp only [List.head?_cons, Option.some.injEq] at hh
      subst hh
      rw [numShapedL] at h
      rw [if_pos (by simp)] at h
      simp only [List.drop_one, List.tail_cons, Bool.and_eq_true,
        Bool.not_eq_true', List.all_eq_true] at h
      have hne : tl ≠ [] := by
        cases tl with
        | nil => simp [List.isEmpty] at h
        | cons a b => simp
      rw [takeNumber, if_pos (by simp), List.cons_append, List.drop_one,
        List.tail_cons]
      rw [takeToken1_append Char.isDigit tl ' ' rest hne h.2 (by decide)]
  · rw [numShapedL, if_neg hh] at h
    simp only [Bool.and_eq_true, Bool.not_eq_true', List.all_eq_true] at h
    have hne : sizeChars ≠ [] := by
      cases sizeChars with
      | nil => simp [List.isEmpty] at h
      | cons a b => simp
    have hh2 : (sizeChars ++ ' ' :: rest).head? ≠ some '-' := by
      cases sizeChars with
      | nil => exact absurd rfl hne
      | cons a b =>
        simp only [List.cons_append, List.head?_cons]
        intro heq
        injection heq with heq2
        rw [heq2] at h
        have := h.2 '-' (by simp)
        simp at this
    rw [takeNumber, if_neg hh2]
    exact takeToken1_append Char.isDigit sizeChars ' ' rest hne h.2 (by decide)

/-- matchPattern is unaffected by input beyond what it consumes. -/
theorem matchPattern_append (ps : List Char) (xs ys r : List Char)
    (h : matchPattern ps xs = some ys) :
    matchPattern ps (xs ++ r) = some (ys ++ r) := by
  induction ps generalizing xs with
  | nil =>
    rw [matchPattern] at h
    injection h with h2
    subst h2
    rfl
  | cons p ps ih =>
    cases xs with
    | nil => exact Option.noConfusion h
    | cons c cs =>
      rw [matchPattern] at h
      by_cases hpc : patChar p c = true
      · rw [if_pos hpc] at h
        rw [List.cons_append, matchPattern, if_pos hpc]
        exact ih cs h
      · rw [if_neg hpc] at h
        exact Option.noConfusion h

/-- tokenShaped describes a nonempty whitespace-free field. -/
def tokenShaped (s : String) : Bool :=
  ! s.data.isEmpty && s.data.all (fun c => ! isWhite c)

/-- nameQuotable describes the file names the claims concern: nonempty
and free of the characters `%q` would escape (quotes, backslashes and
control characters). -/
def nameQuotable (s : String) : Bool :=
  ! s.data.isEmpty &&
    s.data.all (fun c => 32 ≤ c.toNat && c ≠ '"' && c ≠ '\\')

/-- infoWF describes a well-formed fileInfo as the bisync core produces
them: reserved flags and id values, a rendered timestamp, a
whitespace-free hash value, and a size whose decimal rendering decodes
back to itself. -/
def infoWF (fi : FileInfo) : Prop :=
  (fi.flags = "" ∨ fi.flags = "-" ∨ fi.flags = "d") ∧
  (fi.id = "" ∨ fi.id = "-") ∧
  timestampShaped fi.time = true ∧
  (fi.hash = "" ∨ tokenShaped fi.hash = true) ∧
  numShaped (toString fi.size) = true ∧
  decodeInt (toString fi.size) = fi.size

/-- hashNameWF describes a well-formed listing hash-type name: absent,
or a whitespace-free colon-free word. -/
def hashNameWF (s : String) : Prop :=
  s = "" ∨ (tokenShaped s = true ∧ s.data.all (fun c => c ≠ ':') = true)

/-- A digit is not regexp whitespace. -/
theorem isDigit_not_white (c : Char) (h : c.isDigit = true) :
    isWhite c = false := by
  have hne : c ≠ ' ' ∧ c ≠ '\t' ∧ c ≠ '\n' ∧ c ≠ '\r' ∧ c ≠ '\x0c' := by
    refine ⟨?_, ?_, ?_, ?_, ?_⟩ <;>
      (intro he; subst he; exact absurd h (by decide))
  simp [isWhite, hne.1, hne.2.1, hne.2.2.1, hne.2.2.2.1, hne.2.2.2.2]

/-- parseLine succeeds on a line assembled from well-shaped fields,
returning exactly those fields. -/
theorem parseLine_fields (fc : Char) (k : Nat)
    (sizeChars hashChars idChars timeChars nameChars : List Char)
    (hfc : isWhite fc = false)
    (hsize : numShapedL sizeChars = true)
    (hhashne : hashChars ≠ []) (hhashw : ∀ c ∈ hashChars, isWhite c = false)
    (hidne : idChars ≠ []) (hidw : ∀ c ∈ idChars, isWhite c = false)
    (htime : matchPattern timestampPat timeChars = some [])
    (hnmne : nameChars ≠ []) (hnmw : ∀ c ∈ nameChars, c ≠ '\n') :
    parseLine (String.mk (fc :: ' ' :: (List.replicate k ' ' ++
        (sizeChars ++ ' ' :: (hashChars ++ ' ' :: (idChars ++ ' ' ::
          (timeChars ++ ' ' :: ('"' :: nameChars ++ ['"'])))))))) =
      some ⟨String.mk [fc], String.mk sizeChars, String.mk hashChars,
        String.mk idChars, String.mk timeChars,
        String.mk ('"' :: nameChars ++ ['"'])⟩ := by
  have hs0 : ∃ s0 sRest, sizeChars = s0 :: sRest ∧ isWhite s0 = false := by
    rw [numShapedL] at hsize
    by_cases hh : sizeChars.head? = some '-'
    · cases sizeChars with
      | nil => simp at hh
      | cons a tl =>
        injection hh with hh2
        exact ⟨a, tl, by rw [hh2], by rw [hh2]; decide⟩
    · rw [if_neg hh] at hsize
      simp only [Bool.and_eq_true, Bool.not_eq_true', List.all_eq_true] at hsize
      cases sizeChars with
      | nil => simp [List.isEmpty] at hsize
      | cons a tl =>
        exact ⟨a, tl, rfl, isDigit_not_white a (hsize.2 a (by simp))⟩
  obtain ⟨s0, sRest, hS, hs0w⟩ := hs0
  have h1 : takeToken1 (fun x => x == ' ')
      (' ' :: (List.replicate k ' ' ++ (sizeChars ++ ' ' :: (hashChars ++
        ' ' :: (idChars ++ ' ' :: (timeChars ++ ' ' ::
          ('"' :: nameChars ++ ['"'])))))))
      = some (' ' :: List.replicate k ' ',
          sizeChars ++ ' ' :: (hashChars ++ ' ' :: (idChars ++ ' ' ::
            (timeChars ++ ' ' :: ('"' :: nameChars ++ ['"']))))) := by
    rw [hS, List.cons_append]
    rw [show (' ' :: (List.replicate k ' ' ++ (s0 :: (sRest ++ ' ' ::
        (hashChars ++ ' ' :: (idChars ++ ' ' :: (timeChars ++ ' ' ::
          ('"' :: nameChars ++ ['"'])))))))) = ((' ' :: List.replicate k ' ') ++
        (s0 :: (sRest ++ ' ' :: (hashChars ++ ' ' :: (idChars ++ ' ' ::
          (timeChars ++ ' ' :: ('"' :: nameChars ++ ['"'])))))))
      from by simp]
    rw [takeToken1_append _ _ _ _ (by simp)
      (fun c hc => by
        rcases List.mem_cons.mp hc with rfl | hc2
        · rfl
        · rw [List.eq_of_mem_replicate hc2]
          decide)
      (by simp [Bool.eq_false_iff]; intro he; rw [he] at hs0w; simp [isWhite] at hs0w)]
  have h2 : takeNumber (sizeChars ++ ' ' :: (hashChars ++ ' ' :: (idChars ++
      ' ' :: (timeChars ++ ' ' :: ('"' :: nameChars ++ ['"'])))))
      = some (sizeChars, ' ' :: (hashChars ++ ' ' :: (idChars ++ ' ' ::
          (timeChars ++ ' ' :: ('"' :: nameChars ++ ['"']))))) :=
    takeNumber_append sizeChars _ hsize
  have h4 : takeToken1 (fun x => ! isWhite x) (hashChars ++ ' ' :: (idChars ++
      ' ' :: (timeChars ++ ' ' :: ('"' :: nameChars ++ ['"']))))
      = some (hashChars, ' ' :: (idChars ++ ' ' :: (timeChars ++ ' ' ::
          ('"' :: nameChars ++ ['"'])))) :=
    takeToken1_append _ hashChars ' ' _ hhashne
      (fun c hc => by simp [hhashw c hc]) (by decide)
  have h6 : takeToken1 (fun x => ! isWhite x) (idChars ++ ' ' :: (timeChars ++
      ' ' :: ('"' :: nameChars ++ ['"'])))
      = some (idChars, ' ' :: (timeChars ++ ' ' ::
          ('"' :: nameChars ++ ['"']))) :=
    takeToken1_append _ idChars ' ' _ hidne
      (fun c hc => by simp [hidw c hc]) (by decide)
  have h8 : matchPattern timestampPat (timeChars ++ ' ' ::
      ('"' :: nameChars ++ ['"']))
      = some (' ' :: ('"' :: nameChars ++ ['"'])) := by
    have := matchPattern_append timestampPat timeChars []
      (' ' :: ('"' :: nameChars ++ ['"'])) htime
    simpa using this
  have h9 : (timeChars ++ ' ' :: ('"' :: nameChars ++ ['"'])).take
      ((timeChars ++ ' ' :: ('"' :: nameChars ++ ['"'])).length -
        (' ' :: ('"' :: nameChars ++ ['"'])).length) = timeChars := by
    have hlen : (timeChars ++ ' ' :: ('"' :: nameChars ++ ['"'])).length -
        (' ' :: ('"' :: nameChars ++ ['"'])).length = timeChars.length := by
      simp only [List.length_append, List.length_cons]
      omega
    rw [hlen]
    exact List.take_left _ _
  have h11 : checkQuoted ('"' :: nameChars ++ ['"']) = true := by
    rw [show ('"' :: nameChars ++ ['"'] : List Char)
        = '"' :: (nameChars ++ ['"']) from rfl]
    rw [checkQuoted]
    simp only [Bool.and_eq_true, decide_eq_true_eq, beq_iff_eq,
      Bool.not_eq_true']
    refine ⟨⟨?_, List.getLast?_concat _⟩, ?_⟩
    · have := List.length_pos.mpr hnmne
      simp only [List.length_append, List.length_singleton]
      omega
    · rw [show (('\"' :: (nameChars ++ ['\"'])).contains '\n')
          = decide ('\n' ∈ ('\"' :: (nameChars ++ ['\"']))) from
        List.elem_eq_mem _ _]
      simp only [decide_eq_false_iff_not, List.mem_cons, List.mem_append,
        List.mem_singleton]
      push_neg
      refine ⟨by decide, fun h => hnmw '\n' h rfl, by decide⟩
  simp only [parseLine, hfc, Bool.false_eq_true, if_false, h1, h2, h4, h6, h8,
    h9, h11, checkLit_cons, Option.bind_eq_bind, Option.some_bind, if_true]

/-- lineRegex accepts every line formatLine renders from well-formed
fields, with the six submatches being exactly those fields. -/
theorem parseLine_formatLine (hashName name : String) (fi : FileInfo)
    (hname : nameQuotable name = true) (hfi : infoWF fi)
    (hhn : hashNameWF hashName) :
    parseLine (formatLine hashName name fi)
      = some ⟨(if fi.flags = "" then "-" else fi.flags), toString fi.size,
          (if hashName ≠ "" ∧ fi.hash ≠ "" then hashName ++ ":" ++ fi.hash
            else "-"), "-", fi.time, quoteName name⟩ := by
  obtain ⟨hfl, hid, htime, hhash, hnum, _hdec⟩ := hfi
  have hflags : ∃ fc, (if fi.flags = "" then "-" else fi.flags)
      = String.mk [fc] ∧ isWhite fc = false := by
    rcases hfl with h | h | h
    · exact ⟨'-', by rw [h, if_pos rfl], by decide⟩
    · exact ⟨'-', by rw [h]; rw [if_neg (by decide)], by decide⟩
    · exact ⟨'d', by rw [h]; rw [if_neg (by decide)], by decide⟩
  obtain ⟨fc, hflagseq, hfcw⟩ := hflags
  have hidStr : (if fi.id = "" then "-" else fi.id) = "-" := by
    rcases hid with h | h
    · rw [h, if_pos rfl]
    · rw [h]
      rw [if_neg (by decide)]
  have hhashFields : ∃ hashChars,
      (if hashName ≠ "" ∧ fi.hash ≠ "" then hashName ++ ":" ++ fi.hash
        else "-") = String.mk hashChars ∧ hashChars ≠ [] ∧
      ∀ c ∈ hashChars, isWhite c = false := by
    by_cases hcond : hashName ≠ "" ∧ fi.hash ≠ ""
    · refine ⟨hashName.data ++ ':' :: fi.hash.data, ?_, by simp, ?_⟩
      · rw [if_pos hcond]
        have : (hashName ++ ":" ++ fi.hash).data
            = hashName.data ++ ':' :: fi.hash.data := by
          rw [String.data_append, String.data_append]
          rw [show (":" : String).data = [':'] from rfl, List.append_assoc]
          rfl
        exact (congrArg String.mk this : _)
      · intro c hc
        rcases List.mem_append.mp hc with hc1 | hc2
        · rcases hhn with hn | hn
          · exact absurd hn hcond.1
          · have := hn.1
            rw [tokenShaped, Bool.and_eq_true, List.all_eq_true] at this
            simpa using this.2 c hc1
        · rcases List.mem_cons.mp hc2 with rfl | hc3
          · decide
          · rcases hhash with hh | hh
            · exact absurd hh hcond.2
            · rw [tokenShaped, Bool.and_eq_true, List.all_eq_true] at hh
              simpa using hh.2 c hc3
    · refine ⟨['-'], ?_, by simp, ?_⟩
      · rw [if_neg hcond]
      · intro c hc
        simp only [List.mem_singleton] at hc
        rw [hc]
        decide
  obtain ⟨hashChars, hcheq, hchne, hchw⟩ := hhashFields
  have hname' := hname
  rw [nameQuotable, Bool.and_eq_true, Bool.not_eq_true',
    List.all_eq_true] at hname'
  have hnmne : name.data ≠ [] := by
    intro he
    rw [he] at hname'
    simp at hname'
  have hnmw : ∀ c ∈ name.data, c ≠ '\n' := by
    intro c hc he
    have := hname'.2 c hc
    rw [he] at this
    simp at this
  have htimeMP : matchPattern timestampPat fi.time.data = some [] := by
    rw [timestampShaped] at htime
    exact of_decide_eq_true htime
  have hnum' : numShapedL (toString fi.size).data = true := hnum
  have happ := parseLine_fields fc (8 - (toString fi.size).length)
    (toString fi.size).data hashChars ['-'] fi.time.data name.data
    hfcw hnum' hchne hchw (by simp)
    (by
      intro c hc
      simp only [List.mem_singleton] at hc
      rw [hc]
      decide)
    htimeMP hnmne hnmw
  have hdata : (formatLine hashName name fi).data
      = fc :: ' ' :: (List.replicate (8 - (toString fi.size).length) ' ' ++
          ((toString fi.size).data ++ ' ' :: (hashChars ++ ' ' :: (['-'] ++
            ' ' :: (fi.time.data ++ ' ' ::
              ('"' :: name.data ++ ['"'])))))) := by
    rw [formatLine]
    simp only [hflagseq, hidStr, hcheq]
    simp only [String.data_append, padLeft, quoteName, List.append_assoc]
    rfl
  rw [show formatLine hashName name fi
      = String.mk (fc :: ' ' :: (List.replicate (8 - (toString fi.size).length)
          ' ' ++ ((toString fi.size).data ++ ' ' :: (hashChars ++ ' ' ::
            (['-'] ++ ' ' :: (fi.time.data ++ ' ' ::
              ('"' :: name.data ++ ['"'])))))))
    from (congrArg String.mk hdata : _)]
  rw [happ]
  rw [hflagseq, hcheq]
  rfl

/-- Unquote inverts quoteName on quotable names. -/
theorem unquoteName_quoteName (name : String) (h : nameQuotable name = true) :
    unquoteName (quoteName name) = some name := by
  rw [nameQuotable, Bool.and_eq_true, List.all_eq_true] at h
  have hdata : (quoteName name).data = '"' :: (name.data ++ ['"']) := by
    rw [quoteName, String.data_append, String.data_append]
    rfl
  have hlast : ('"' :: (name.data ++ ['"'])).getLast? = some '"' := by
    rw [show ('"' :: (name.data ++ ['"'])) = ('"' :: name.data) ++ ['"'] from by
      simp]
    exact List.getLast?_concat _
  have hall : (name.data.all
      (fun c => decide (c ≠ '"' ∧ c ≠ '\\' ∧ c ≠ '\n'))) = true := by
    rw [List.all_eq_true]
    intro c hc
    have := h.2 c hc
    simp only [Bool.and_eq_true, decide_eq_true_eq] at this ⊢
    refine ⟨this.1.2, this.2, ?_⟩
    intro he
    rw [he] at this
    exact absurd this.1.1 (by decide)
  rw [unquoteName, hdata]
  rw [if_pos ⟨by simp, hlast, by simp⟩]
  rw [show List.drop 1 ('"' :: (name.data ++ ['"'])) = name.data ++ ['"']
    from rfl]
  rw [show (name.data ++ ['"']).dropLast = name.data from List.dropLast_concat]
  rw [if_pos hall]

/-- parseHash inverts the hash rendering save produces. -/
theorem parseHash_formatted (hashName hashVal : String)
    (hn : tokenShaped hashName = true)
    (hcol : hashName.data.all (fun c => c ≠ ':') = true)
    (hv : hashVal ≠ "") :
    parseHash (hashName ++ ":" ++ hashVal) = some (hashName, hashVal) := by
  rw [tokenShaped, Bool.and_eq_true, Bool.not_eq_true'] at hn
  have hne : hashName.data ≠ [] := by
    intro he
    rw [he] at hn
    simp at hn
  have hdata : (hashName ++ ":" ++ hashVal).data
      = hashName.data ++ ':' :: hashVal.data := by
    rw [String.data_append, String.data_append]
    rw [show (":" : String).data = [':'] from rfl, List.append_assoc]
    rfl
  have hnotdash : (hashName ++ ":" ++ hashVal) ≠ "-" := by
    intro he
    have := congrArg String.data he
    rw [hdata] at this
    cases hd : hashName.data with
    | nil => exact hne hd
    | cons a tl =>
      rw [hd] at this
      rw [show ("-" : String).data = ['-'] from rfl] at this
      cases tl with
      | nil => simp at this
      | cons b tl2 => simp at this
  rw [List.all_eq_true] at hcol
  obtain ⟨htw, hdw⟩ := takeWhile_dropWhile_append (fun c => c ≠ ':')
    hashName.data ':' hashVal.data
    (fun c hc => by simpa using hcol c hc) (by simp)
  have hvne : hashVal.data ≠ [] := by
    intro he
    apply hv
    have h2 : String.mk hashVal.data = String.mk [] := congrArg String.mk he
    simpa using h2
  rw [parseHash, if_neg hnotdash]
  simp only [hdata, htw, hdw]
  rw [if_pos ?_]
  · rfl
  · refine ⟨by simp, List.length_pos.mpr hne, ?_⟩
    simp only [List.drop_one, List.tail_cons]
    exact List.length_pos.mpr hvne

/-- loadListing skips the header line save wrote (it starts with '#'),
whatever the current state. -/
theorem loadListingStep_header (st : FileList × String) (now : String) :
    loadListingStep st (ListingHeader ++ " " ++ now) = st := by
  have hh : (ListingHeader ++ " " ++ now).data.head? = some '#' := by
    rw [String.data_append, String.data_append]
    rfl
  rw [loadListingStep, if_pos (Or.inr hh)]

set_option maxHeartbeats 1600000 in
/-- loadListing accepts every line formatLine renders from well-formed
fields: the entry is stored via put (with the flags, id and hash fields
normalized the way save wrote them), and the hash-name bookkeeping picks
up the listing's hash type from the first hashed line. -/
theorem loadListingStep_formatLine (ls0 : FileList) (last : String)
    (hashName name : String) (fi : FileInfo)
    (hname : nameQuotable name = true) (hfi : infoWF fi)
    (hhn : hashNameWF hashName)
    (hfresh : fileListHas ls0 name = false) :
    ((hashName = "" ∨ fi.hash = "") →
      loadListingStep (ls0, last) (formatLine hashName name fi)
        = (fileListPut ls0 name fi.size fi.time "" "-"
            (if fi.flags = "" then "-" else fi.flags), last)) ∧
    (hashName ≠ "" → fi.hash ≠ "" →
      ((last = "" →
        loadListingStep (ls0, last) (formatLine hashName name fi)
          = (fileListPut ⟨ls0.list, ls0.info, hashName⟩ name fi.size fi.time
              fi.hash "-" (if fi.flags = "" then "-" else fi.flags),
            hashName)) ∧
      (last = hashName →
        loadListingStep (ls0, last) (formatLine hashName name fi)
          = (fileListPut ls0 name fi.size fi.time fi.hash "-"
              (if fi.flags = "" then "-" else fi.flags), last)))) := by
  have hp := parseLine_formatLine hashName name fi hname hfi hhn
  have hunq := unquoteName_quoteName name hname
  have hparse : parseHash "-" = some ("", "") := rfl
  obtain ⟨hfl, hid, htime, hhash, hnum, hdec⟩ := hfi
  have hfcs : ∃ fc, (if fi.flags = "" then "-" else fi.flags)
      = String.mk [fc] ∧ (fc = '-' ∨ fc = 'd') := by
    rcases hfl with h | h | h
    · exact ⟨'-', by rw [h, if_pos rfl], Or.inl rfl⟩
    · exact ⟨'-', by rw [h]; rw [if_neg (by decide)], Or.inl rfl⟩
    · exact ⟨'d', by rw [h]; rw [if_neg (by decide)], Or.inr rfl⟩
  obtain ⟨fc, hfceq, hfc2⟩ := hfcs
  have hhead2 : (formatLine hashName name fi).data.head? = some fc := by
    rw [formatLine]
    simp only [hfceq]
    simp [String.data_append]
  have hne : ¬ (formatLine hashName name fi = "" ∨
      (formatLine hashName name fi).data.head? = some '#') := by
    rw [not_or]
    constructor
    · intro he
      rw [he] at hhead2
      exact Option.noConfusion hhead2
    · rw [hhead2]
      rcases hfc2 with rfl | rfl <;> decide
  have hflagsW : (if fi.flags = "" then "-" else fi.flags) = "-" ∨
      (if fi.flags = "" then "-" else fi.flags) = "d" := by
    rcases hfc2 with rfl | rfl
    · exact Or.inl (by rw [hfceq])
    · exact Or.inr (by rw [hfceq])
  have hcheckOk : ¬ (((if fi.flags = "" then "-" else fi.flags) ≠ "-" ∧
      (if fi.flags = "" then "-" else fi.flags) ≠ "d") ∨
      ("-" : String) ≠ "-" ∨ ¬ timestampShaped fi.time = true) := by
    push_neg
    refine ⟨fun hnd => ?_, rfl, htime⟩
    rcases hflagsW with h | h
    · exact absurd h hnd
    · exact h
  have hhasF : ¬ (fileListHas ls0 name = true ∧
      fileListAfterTime ls0 name fi.time = true) := by
    rw [hfresh]
    simp
  refine ⟨fun hcase => ?_, fun hn1 hn2 => ⟨fun hl => ?_, fun hl => ?_⟩⟩
  · have hhs : (if hashName ≠ "" ∧ fi.hash ≠ "" then
        hashName ++ ":" ++ fi.hash else "-") = "-" := by
      rw [if_neg (show ¬ (hashName ≠ "" ∧ fi.hash ≠ "") from
        fun hand => hcase.elim (fun h => hand.1 h) (fun h => hand.2 h))]
    rw [hhs] at hp
    rw [loadListingStep, if_neg hne]
    simp only [hp, hparse, hunq]
    rw [if_neg (show ¬ (("" : String) ≠ "" ∧ last ≠ "" ∧ ("" : String) ≠ last)
      from by simp)]
    rw [if_neg (show ¬ (("" : String) ≠ "" ∧ last = "") from by simp),
      if_neg (show ¬ (("" : String) ≠ "" ∧ last = "") from by simp)]
    rw [if_neg hcheckOk]
    rw [if_neg hhasF]
    rw [hdec]
  · have hhs : (if hashName ≠ "" ∧ fi.hash ≠ "" then
        hashName ++ ":" ++ fi.hash else "-")
        = hashName ++ ":" ++ fi.hash := if_pos ⟨hn1, hn2⟩
    rw [hhs] at hp
    have htok : tokenShaped hashName = true ∧
        hashName.data.all (fun c => c ≠ ':') = true := by
      rcases hhn with h | h
      · exact absurd h hn1
      · exact h
    have hph := parseHash_formatted hashName fi.hash htok.1 htok.2 hn2
    subst hl
    rw [loadListingStep, if_neg hne]
    simp only [hp, hph, hunq]
    rw [if_neg (show ¬ (hashName ≠ "" ∧ ("" : String) ≠ "" ∧
      hashName ≠ ("" : String)) from by simp)]
    rw [if_neg hcheckOk]
    simp only [if_pos (show hashName ≠ "" ∧ True from ⟨hn1, trivial⟩)]
    rw [if_neg (show ¬ (fileListHas ⟨ls0.list, ls0.info, hashName⟩ name = true ∧
      fileListAfterTime ⟨ls0.list, ls0.info, hashName⟩ name fi.time = true)
      from by rw [show fileListHas ⟨ls0.list, ls0.info, hashName⟩ name
          = fileListHas ls0 name from rfl, hfresh]; simp)]
    rw [hdec]
  · have hhs : (if hashName ≠ "" ∧ fi.hash ≠ "" then
        hashName ++ ":" ++ fi.hash else "-")
        = hashName ++ ":" ++ fi.hash := if_pos ⟨hn1, hn2⟩
    rw [hhs] at hp
    have htok : tokenShaped hashName = true ∧
        hashName.data.all (fun c => c ≠ ':') = true := by
      rcases hhn with h | h
      · exact absurd h hn1
      · exact h
    have hph := parseHash_formatted hashName fi.hash htok.1 htok.2 hn2
    rw [hl]
    rw [loadListingStep, if_neg hne]
    simp only [hp, hph, hunq]
    rw [if_neg (show ¬ (hashName ≠ "" ∧ hashName ≠ "" ∧ hashName ≠ hashName)
      from by simp)]
    rw [if_neg hcheckOk]
    simp only [if_neg (show ¬ (hashName ≠ "" ∧ hashName = "") from
      fun hand => hand.1 hand.2)]
    rw [if_neg hhasF]
    rw [hdec]

/-- sortNames delivers a permutation of the names. -/
theorem sortNames_perm (l : List String) : (sortNames l).Perm l :=
  List.mergeSort_perm l _

/-- sortNames delivers the names in nondecreasing order. -/
theorem sortNames_sorted (l : List String) :
    (sortNames l).Pairwise (fun a b : String => a ≤ b) := by
  have h : (l.mergeSort (fun a b => a ≤ b)).Pairwise
      (fun a b : String => decide (a ≤ b) = true) := by
    apply List.sorted_mergeSort
    · intro a b c hab hbc
      simp only [decide_eq_true_eq] at *
      exact le_trans hab hbc
    · intro a b
      simp [le_total]
  exact h.imp (fun hab => of_decide_eq_true hab)

/-- Claim C8 counterexample: the header line save writes begins
`# bisync listing v1 from`, not the claimed `# listing v1 from`. -/
theorem C8_listing_counterexample :
    save ⟨[], [], ""⟩ "2024-01-01T00:00:00.000000000+0000"
      = ["# bisync listing v1 from 2024-01-01T00:00:00.000000000+0000"] ∧
    ListingHeader ≠ "# listing v1 from" := by
  constructor
  · rw [save]
    rw [show sortNames ([] : List String) = [] from by simp [sortNames]]
    rfl
  · decide

/-- Claim C8 (amended): save writes exactly one header line reading
`# bisync listing v1 from <time>` followed by one line per entry, the
entries sorted by path name, each line carrying flags, size, hash, id,
mtime and the quoted name in that order; loadListing skips the header
and accepts every line of exactly that shape, storing the entry. -/
theorem C8_listing_save_load (ls : FileList) (now : String)
    (st : FileList × String) (name : String) (fi : FileInfo)
    (hname : nameQuotable name = true) (hfi : infoWF fi)
    (hhn : hashNameWF ls.hashName)
    (hmem : name ∈ ls.list)
    (hlook : lookupInfo ls.info name = some fi)
    (hfresh : fileListHas st.1 name = false) :
    (save ls now).length = ls.list.length + 1 ∧
    (save ls now).head? = some (ListingHeader ++ " " ++ now) ∧
    (sortNames ls.list).Perm ls.list ∧
    (sortNames ls.list).Pairwise (fun a b : String => a ≤ b) ∧
    formatLine ls.hashName name fi ∈ (save ls now).tail ∧
    parseLine (formatLine ls.hashName name fi)
      = some ⟨(if fi.flags = "" then "-" else fi.flags), toString fi.size,
          (if ls.hashName ≠ "" ∧ fi.hash ≠ "" then
            ls.hashName ++ ":" ++ fi.hash else "-"),
          "-", fi.time, quoteName name⟩ ∧
    loadListingStep st (ListingHeader ++ " " ++ now) = st ∧
    ((ls.hashName = "" ∨ fi.hash = "") →
      loadListingStep st (formatLine ls.hashName name fi)
        = (fileListPut st.1 name fi.size fi.time "" "-"
            (if fi.flags = "" then "-" else fi.flags), st.2)) ∧
    (ls.hashName ≠ "" → fi.hash ≠ "" →
      ((st.2 = "" →
        loadListingStep st (formatLine ls.hashName name fi)
          = (fileListPut ⟨st.1.list, st.1.info, ls.hashName⟩ name fi.size
              fi.time fi.hash "-" (if fi.flags = "" then "-" else fi.flags),
            ls.hashName)) ∧
      (st.2 = ls.hashName →
        loadListingStep st (formatLine ls.hashName name fi)
          = (fileListPut st.1 name fi.size fi.time fi.hash "-"
              (if fi.flags = "" then "-" else fi.flags), st.2)))) := by
  have hstep := loadListingStep_formatLine st.1 st.2 ls.hashName name fi
    hname hfi hhn hfresh
  refine ⟨?_, rfl, sortNames_perm _, sortNames_sorted _, ?_, ?_, ?_, ?_, ?_⟩
  · rw [save]
    simp only [List.length_cons, List.length_map]
    rw [(sortNames_perm ls.list).length_eq]
  · rw [save]
    simp only [List.tail_cons]
    apply List.mem_map.mpr
    refine ⟨name, ?_, by rw [hlook]⟩
    exact ((sortNames_perm ls.list).mem_iff).mpr hmem
  · exact parseLine_formatLine ls.hashName name fi hname hfi hhn
  · exact loadListingStep_header st now
  · exact hstep.1
  · exact hstep.2

/-- A concrete hashed file entry for exercising the listing roundtrip. -/
def fiW8 : FileInfo := ⟨5, "2024-01-02T03:04:05.000000000+0000", "abc", "", ""⟩

/-- A concrete directory entry for exercising the listing roundtrip. -/
def fiW8b : FileInfo := ⟨7, "2024-03-04T05:06:07.000000000+0000", "", "-", "d"⟩

/-- A concrete two-entry md5 listing. -/
def lsW8 : FileList := ⟨["b", "a"], [("a", fiW8), ("b", fiW8b)], "md5"⟩

/-- A fresh in-progress load state. -/
def stW8 : FileList × String := (⟨[], [], ""⟩, "")

/-- A concrete listing-creation time. -/
def nowW8 : String := "2024-06-01T00:00:00.000000000+0000"

/-- Witness for claim C8: the save/load roundtrip at a concrete
two-entry md5 listing. -/
theorem C8_listing_save_load_witness :
    (save lsW8 nowW8).length = lsW8.list.length + 1 ∧
    (save lsW8 nowW8).head? = some (ListingHeader ++ " " ++ nowW8) ∧
    (sortNames lsW8.list).Perm lsW8.list ∧
    (sortNames lsW8.list).Pairwise (fun a b : String => a ≤ b) ∧
    formatLine lsW8.hashName "a" fiW8 ∈ (save lsW8 nowW8).tail ∧
    parseLine (formatLine lsW8.hashName "a" fiW8)
      = some ⟨(if fiW8.flags = "" then "-" else fiW8.flags), toString fiW8.size,
          (if lsW8.hashName ≠ "" ∧ fiW8.hash ≠ "" then
            lsW8.hashName ++ ":" ++ fiW8.hash else "-"),
          "-", fiW8.time, quoteName "a"⟩ ∧
    loadListingStep stW8 (ListingHeader ++ " " ++ nowW8) = stW8 ∧
    ((lsW8.hashName = "" ∨ fiW8.hash = "") →
      loadListingStep stW8 (formatLine lsW8.hashName "a" fiW8)
        = (fileListPut stW8.1 "a" fiW8.size fiW8.time "" "-"
            (if fiW8.flags = "" then "-" else fiW8.flags), stW8.2)) ∧
    (lsW8.hashName ≠ "" → fiW8.hash ≠ "" →
      ((stW8.2 = "" →
        loadListingStep stW8 (formatLine lsW8.hashName "a" fiW8)
          = (fileListPut ⟨stW8.1.list, stW8.1.info, lsW8.hashName⟩ "a"
              fiW8.size fiW8.time fiW8.hash "-"
              (if fiW8.flags = "" then "-" else fiW8.flags),
            lsW8.hashName)) ∧
      (stW8.2 = lsW8.hashName →
        loadListingStep stW8 (formatLine lsW8.hashName "a" fiW8)
          = (fileListPut stW8.1 "a" fiW8.size fiW8.time fiW8.hash "-"
              (if fiW8.flags = "" then "-" else fiW8.flags), stW8.2)))) :=
  C8_listing_save_load lsW8 nowW8 stW8 "a" fiW8 (by decide)
    ⟨Or.inl rfl, Or.inl rfl, by decide, Or.inr (by decide), by decide,
      by decide⟩
    (Or.inr ⟨by decide, by decide⟩) (by decide) (by decide) (by decide)

end Rclone
